import Mathlib

/-!
Verification development for the MediTrack prescription / medication-adherence
application.  The definitions below are shallow embeddings of the TypeScript /
JavaScript source:

* dose-schedule expansion        — `DoctorDashboard.tsx`, `handleFinalSave`
* adherence calculation          — `PatientDashboard` (`adherenceToday`)
* dose-event state machine       — `MedicationTracker.tsx` (`updateLogStatus`,
                                   pending-only action buttons)
* safety-check request builder   — `MedicalHistoryCheck.tsx` (`handleAiCheck`,
                                   `calculateAge`)
* safety-check response pipeline — `server.cjs` (`/run-safety-check` handler:
                                   JSON extraction, `JSON.parse`, validation)
                                   composed with the client-side mapping in
                                   `MedicalHistoryCheck.handleAiCheck`.

Dates are modelled abstractly: a calendar day is a `Nat` day index and a
scheduled timestamp is a (day, hour) pair.  JavaScript `Date` parsing and
time-zone conversion are outside the embedding.  The IEEE-double arithmetic
of the adherence computation is modelled faithfully: each double operation
(the division and the multiplication by 100) is a correctly rounded value —
round to nearest, ties to even, 53-bit mantissa, subnormal range included —
represented as an exact rational, and `Math.round` is the exact
nearest-integer (ties toward positive infinity) of that rational value.
This reproduces the cases where the double evaluation of
`(taken / denom) * 100` lands on the other side of a half-integer than the
exact quotient (first at taken = 23, denom = 40, where the code shows 57
while exact rounding gives 58).  The one non-finite value the code can
produce (`Math.round(0/0) = NaN`) is modelled as `Option.none`.
-/

namespace MediTrack

/-- Status of one dose event (`medication_logs.status`). -/
inductive LogStatus where
  | pending
  | taken
  | missed
  | skipped
deriving DecidableEq, Repr

/-- Timing set of a medication: the three boolean slot flags
`timing.morning / timing.afternoon / timing.night`. -/
structure Timing where
  morning : Bool
  afternoon : Bool
  night : Bool
deriving DecidableEq, Repr

/-- One medication inside a prescription set (`MedicationItem` in the source). -/
structure Medication where
  id : String
  name : String
  dosage : String
  timing : Timing
  instructions : String
deriving DecidableEq, Repr

/-- One row of `medication_logs`, i.e. one dose event.  `day`/`hour` model the
`scheduled_time` timestamp; the constant `patient_id`/`prescription_id`
columns (copied unchanged from the parent prescription for every generated
row) are carried as well. -/
structure LogEntry where
  prescription_id : String
  patient_id : String
  medication_id : String
  medication_name : String
  dosage : String
  day : Nat
  hour : Nat
  status : LogStatus
  taken_at : Option Nat
deriving DecidableEq, Repr

/-! ## Dose schedule expansion (`handleFinalSave`, DoctorDashboard.tsx 181-210) -/

/-- The `createLogEntry` closure of `handleFinalSave`: one pending log row for
a medication at a given day and hour. -/
def createLogEntry (pid patid : String) (med : Medication) (day hour : Nat) : LogEntry :=
  { prescription_id := pid
    patient_id := patid
    medication_id := med.id
    medication_name := med.name
    dosage := med.dosage
    day := day
    hour := hour
    status := .pending
    taken_at := none }

/-- Log rows pushed for one medication on one day: the three
`if (med.timing.X) logsToInsert.push(createLogEntry(X))` statements, in source
order morning (08:00), afternoon (13:00), night (20:00). -/
def medDayLogs (pid patid : String) (med : Medication) (day : Nat) : List LogEntry :=
  (if med.timing.morning then [createLogEntry pid patid med day 8] else []) ++
  (if med.timing.afternoon then [createLogEntry pid patid med day 13] else []) ++
  (if med.timing.night then [createLogEntry pid patid med day 20] else [])

/-- The generation loop of `handleFinalSave`: for each calendar day from the
start date to the end date inclusive, for each medication, push one entry per
selected slot.  When `endDay < startDay` the loop body never runs. -/
def expandSchedule (pid patid : String) (startDay endDay : Nat) (meds : List Medication) :
    List LogEntry :=
  (List.range (endDay + 1 - startDay)).flatMap fun i =>
    meds.flatMap fun med => medDayLogs pid patid med (startDay + i)

/-- Outcome of the save/generation step.  The source has no failure branch for
an empty schedule: after the loop it runs `if (logsToInsert.length > 0)`
around the bulk insert and then unconditionally alerts success. -/
inductive SaveOutcome where
  | success (insertedLogs : List LogEntry) (alertMsg : String)
deriving DecidableEq, Repr

/-- The pure content of `handleFinalSave` after the prescription insert:
generate the logs, insert them only when non-empty, report success.  Database
errors (exceptions from the store) are outside the embedding; there is no
"empty schedule" error path in the code. -/
def handleFinalSaveLogs (pid patid : String) (startDay endDay : Nat)
    (meds : List Medication) : SaveOutcome :=
  let logsToInsert := expandSchedule pid patid startDay endDay meds
  .success logsToInsert "Prescription saved and schedule generated!"

/-- The validation gate of `PrescriptionForm.handleSubmit`: a missing patient
or an empty medication list is rejected with an alert before any prescription
object is built. -/
def handleSubmitGate (patientId : String) (medications : List Medication) :
    Except String Unit :=
  if patientId = "" then
    .error "Please select a patient."
  else if medications.length = 0 then
    .error "Please add at least one medication to the prescription."
  else
    .ok ()

/-! ## Adherence calculation (`PatientDashboard`, part_008 lines 100-106) -/

/-- Logs filtered to the selected calendar day (`selectedDateLogs`). -/
def selectedDateLogs (logs : List LogEntry) (d : Nat) : List LogEntry :=
  logs.filter fun l => l.day = d

/-- Count of logs with a given status (`logs.filter(l => l.status === s).length`). -/
def countStatus (logs : List LogEntry) (s : LogStatus) : Nat :=
  (logs.filter fun l => l.status = s).length

/-! ### IEEE-double model of the adherence arithmetic

The source computes `Math.round((takenToday / denom) * 100)` in JavaScript
doubles.  The counts are array lengths, hence exactly representable; the
division and the multiplication are each correctly rounded (round to
nearest, ties to even), and `Math.round` takes the nearest integer of the
resulting double with ties toward positive infinity.  The functions below
implement exactly that: a double value is carried as the exact rational it
denotes, and each operation rounds the exact rational result to the nearest
representable double (53-bit mantissa, subnormal range clamped at the ulp
exponent −1074).  Overflow to infinity is not modelled: every value in this
computation stays at most 100 in magnitude. -/

/-- Floor of the base-2 logarithm, by structural recursion on a fuel bound
(the core `Nat.log2` is compiled by well-founded recursion and does not
reduce in the kernel). -/
def natLog2Aux : Nat → Nat → Nat
  | 0, _ => 0
  | fuel + 1, n => if 2 ≤ n then natLog2Aux fuel (n / 2) + 1 else 0

/-- Floor of the base-2 logarithm of a natural number (0 at 0 and 1). -/
def natLog2 (n : Nat) : Nat :=
  natLog2Aux n n

/-- Round `num / den` to the nearest integer, ties to even — the IEEE
default rounding applied to the scaled mantissa. -/
def roundNearestEven (num den : Nat) : Nat :=
  let q := num / den
  let r := num % den
  if 2 * r < den then q
  else if den < 2 * r then q + 1
  else if q % 2 = 0 then q else q + 1

/-- Decide `den * 2 ^ e ≤ num`, i.e. `2 ^ e ≤ num / den`, for an integer
exponent of either sign. -/
def le2pow (den num : Nat) (e : Int) : Bool :=
  if 0 ≤ e then den * 2 ^ e.toNat ≤ num else den ≤ num * 2 ^ (-e).toNat

/-- Floor of the base-2 logarithm of `num / den`, for positive naturals:
the difference of the natural logarithms is off by at most one, and the
`le2pow` test picks the right candidate. -/
def floorLog2 (num den : Nat) : Int :=
  let c : Int := (natLog2 num : Int) - (natLog2 den : Int)
  if le2pow den num c then c else c - 1

/-- Exponent of the least significant mantissa bit of a double whose value
has the given floor-log: `e − 52` in the normal range, clamped at the
subnormal ulp exponent `−1074`. -/
def ulpExp (e : Int) : Int :=
  if e < -1022 then -1074 else e - 52

/-- A non-negative double value carried exactly: the rational `m / 2 ^ k`. -/
structure Dyadic where
  m : Nat
  k : Nat
deriving DecidableEq, Repr

/-- The exact rational a `Dyadic` denotes. -/
def Dyadic.val (x : Dyadic) : ℚ :=
  (x.m : ℚ) / ((2 ^ x.k : ℕ) : ℚ)

/-- The IEEE double nearest to `num / den` (round to nearest, ties to even)
for positive `num` and `den`: the correctly rounded mantissa at the ulp
exponent of the value's binade. -/
def flD (num den : Nat) : Dyadic :=
  let s := ulpExp (floorLog2 num den)
  if 0 ≤ s then ⟨roundNearestEven num (den * 2 ^ s.toNat) * 2 ^ s.toNat, 0⟩
  else ⟨roundNearestEven (num * 2 ^ (-s).toNat) den, (-s).toNat⟩

/-- JavaScript double division of two exactly-represented natural numbers
(used with a positive divisor; the `0 / 0` NaN case is handled at the call
site). -/
def jsDivNat (a b : Nat) : Dyadic :=
  if a = 0 then ⟨0, 0⟩ else flD a b

/-- JavaScript double multiplication of a non-negative double value by the
exactly-represented 100: the correctly rounded double of the exact
product. -/
def jsMul100 (x : Dyadic) : Dyadic :=
  if x.m = 0 then ⟨0, 0⟩ else flD (100 * x.m) (2 ^ x.k)

/-- `Math.round` on a non-negative double value: the nearest integer, ties
toward positive infinity, i.e. `floor(m / 2 ^ k + 1 / 2)`. -/
def jsMathRound (x : Dyadic) : Nat :=
  (2 * x.m + 2 ^ x.k) / (2 * 2 ^ x.k)

/-- Adherence percentage over a list of (already day-filtered) logs.
Source:

  adherenceToday = totalToday > 0
    ? Math.round((takenToday / (totalToday - skippedCount)) * 100)
    : 100

JavaScript evaluates `0 / 0` to `NaN` and `Math.round(NaN)` is `NaN`; that
case (all logs skipped, so the denominator is 0 and the taken count is 0) is
modelled as `none`.  For a positive denominator the value is `Math.round`
of the correctly rounded double evaluation of `(taken / denom) * 100`. -/
def adherencePercent (logs : List LogEntry) : Option Nat :=
  let total := logs.length
  if total > 0 then
    let denom := total - countStatus logs .skipped
    let taken := countStatus logs .taken
    if denom = 0 then none
    else some (jsMathRound (jsMul100 (jsDivNat taken denom)))
  else some 100

/-- The dashboard's `adherenceToday` value for a full log list and a selected
date: filter to the day, then compute the percentage. -/
def adherenceToday (logs : List LogEntry) (d : Nat) : Option Nat :=
  adherencePercent (selectedDateLogs logs d)

/-- Rounding written the way the specification writes it:
`round(num / den × 100)` with round-half-up, as a natural-number floor of an
exact rational.  Used to compare the code's arithmetic with the spec's. -/
def specRound (num den : Nat) : Nat :=
  Nat.floor ((num : ℚ) / (den : ℚ) * 100 + 1 / 2)

/-! ## Dose-event state machine (MedicationTracker.tsx) -/

/-- Patient actions exposed by the tracker UI: the "Mark Taken" and
"Mark Missed" buttons. -/
inductive PatientAction where
  | markTaken
  | markMissed
deriving DecidableEq, Repr

/-- Actions offered for a log row: the buttons are rendered only inside
`log.status === 'pending'` (MedicationTracker.tsx lines 327-344). -/
def availableActions (s : LogStatus) : List PatientAction :=
  if s = .pending then [.markTaken, .markMissed] else []

/-- The `updateLogStatus` update payload: sets the status and sets `taken_at`
to now for 'taken', to null otherwise. -/
def updateLogStatus (now : Nat) (newStatus : LogStatus) (e : LogEntry) : LogEntry :=
  { e with
    status := newStatus
    taken_at := if newStatus = .taken then some now else none }

/-- Effect of a patient action on a log row. -/
def applyAction (now : Nat) (a : PatientAction) (e : LogEntry) : LogEntry :=
  match a with
  | .markTaken => updateLogStatus now .taken e
  | .markMissed => updateLogStatus now .missed e

/-- One step of the dose-event state machine: a patient action can be applied
only when the UI offers it for the row's current status. -/
inductive Step : LogEntry → LogEntry → Prop where
  | act (e : LogEntry) (a : PatientAction) (now : Nat)
      (h : a ∈ availableActions e.status) : Step e (applyAction now a e)

/-! ## Safety-check request builder (`MedicalHistoryCheck.handleAiCheck`) -/

/-- One history item of the patient's medical profile. -/
structure HistoryItem where
  complication : String
  description : String
deriving DecidableEq, Repr

/-- Template for one history item:
`h.complication + (h.description ? ": " + h.description : "")` where the
empty string is falsy. -/
def historyItemText (h : HistoryItem) : String :=
  h.complication ++ (if h.description ≠ "" then ": " ++ h.description else "")

/-- The `known_complications` string:
`patient.medical_history?.map(...).join('; ') || "None provided"`.
A missing list (`none`) makes the optional chain produce `undefined` and the
`||` fallback fires; an empty or all-empty list joins to the falsy `""` and
the same fallback fires. -/
def knownComplicationsText (mh : Option (List HistoryItem)) : String :=
  match mh with
  | none => "None provided"
  | some items =>
    let s := String.intercalate "; " (items.map historyItemText)
    if s = "" then "None provided" else s

/-- Frequency phrase for one medication: push "Morning"/"Afternoon"/"Night"
per selected flag, `times.join(', ') || "As directed"`. -/
def frequencyText (t : Timing) : String :=
  let times := (if t.morning then ["Morning"] else []) ++
    (if t.afternoon then ["Afternoon"] else []) ++
    (if t.night then ["Night"] else [])
  let s := String.intercalate ", " times
  if s = "" then "As directed" else s

/-- A calendar date as exposed by the JavaScript `Date` accessors used in
`calculateAge` (`getFullYear`, `getMonth`, `getDate`). -/
structure SimpleDate where
  year : Int
  month : Int
  day : Int
deriving DecidableEq, Repr

/-- Age before clamping: year difference, minus one when the birthday has not
yet occurred this year. -/
def calculateAgeRaw (today birth : SimpleDate) : Int :=
  let age := today.year - birth.year
  let m := today.month - birth.month
  if m < 0 ∨ (m = 0 ∧ today.day < birth.day) then age - 1 else age

/-- The source's `calculateAge`: a missing (or empty, both falsy) date of
birth returns 0 immediately; otherwise the raw age clamped to be positive
(`return age > 0 ? age : 0`). -/
def calculateAge (today : SimpleDate) (dob : Option SimpleDate) : Int :=
  match dob with
  | none => 0
  | some birth =>
    let age := calculateAgeRaw today birth
    if age > 0 then age else 0

/-- The string-or-fallback idiom `value || "Not specified"`: a missing value
or the falsy empty string takes the fallback. -/
def orElseLabel (v : Option String) (fallback : String) : String :=
  match v with
  | none => fallback
  | some s => if s = "" then fallback else s

/-- The `patient` block of the safety-check payload. -/
structure PatientPayload where
  age : Int
  gender : String
  consultation_reason : String
deriving DecidableEq, Repr

/-- The `history` block of the safety-check payload. -/
structure HistoryPayload where
  known_complications : String
  past_medications : String
deriving DecidableEq, Repr

/-- One entry of `new_prescriptions` in the safety-check payload. -/
structure DrugPayload where
  drug_name : String
  dosage : String
  frequency : String
deriving DecidableEq, Repr

/-- The full payload sent to `POST /run-safety-check`. -/
structure SafetyCheckPayload where
  patient : PatientPayload
  history : HistoryPayload
  new_prescriptions : List DrugPayload
deriving DecidableEq, Repr

/-- Payload construction in `handleAiCheck` (steps 1-2): age, gender and
consultation-reason fallbacks, complication/medication strings and the
per-medication drug triples. -/
def buildPayload (today : SimpleDate) (dob : Option SimpleDate)
    (gender : Option String) (diagnosis : Option String)
    (medicalHistory : Option (List HistoryItem)) (ongoingMedications : Option String)
    (meds : List Medication) : SafetyCheckPayload :=
  { patient :=
      { age := calculateAge today dob
        gender := orElseLabel gender "Not specified"
        consultation_reason := orElseLabel diagnosis "Not specified" }
    history :=
      { known_complications := knownComplicationsText medicalHistory
        past_medications := orElseLabel ongoingMedications "None provided" }
    new_prescriptions := meds.map fun med =>
      { drug_name := med.name
        dosage := med.dosage
        frequency := frequencyText med.timing } }

/-! ## JSON values and `JSON.parse`

The server extracts a JSON text from the model's reply and runs `JSON.parse`
on it.  `Json` models a parsed JavaScript value; numbers are kept exact as
`mantissa × 10 ^ exponent` (the double rounding of `JSON.parse` and its
overflow to `Infinity` / underflow to `0` for huge exponents are not
modelled; no claim depends on numeric values).  The parser below follows the
JSON grammar accepted by `JSON.parse`: the four JSON whitespace characters,
objects, arrays, strings with the standard escapes, numbers, `true`, `false`
and `null`.  Surrogate-pair combination of `\u` escapes is not modelled (an
invalid scalar value becomes the replacement character). -/

inductive Json where
  | null : Json
  | bool : Bool → Json
  | num : Int → Int → Json
  | str : String → Json
  | arr : List Json → Json
  | obj : List (String × Json) → Json

/-- JSON whitespace: space, tab, line feed, carriage return. -/
def isJsonWs (c : Char) : Bool :=
  c = ' ' || c = '\t' || c = '\n' || c = '\r'

/-- Drop leading JSON whitespace. -/
def skipWs (s : List Char) : List Char :=
  s.dropWhile isJsonWs

/-- Decimal digit test. -/
def isDigitCh (c : Char) : Bool :=
  '0' ≤ c && c ≤ '9'

/-- Numeric value of a hexadecimal digit. -/
def hexVal (c : Char) : Option Nat :=
  if '0' ≤ c ∧ c ≤ '9' then some (c.toNat - '0'.toNat)
  else if 'a' ≤ c ∧ c ≤ 'f' then some (c.toNat - 'a'.toNat + 10)
  else if 'A' ≤ c ∧ c ≤ 'F' then some (c.toNat - 'A'.toNat + 10)
  else none

/-- Parse exactly four hexadecimal digits (the payload of a `\u` escape). -/
def parseHex4 : List Char → Option (Nat × List Char)
  | a :: b :: c :: d :: rest =>
    match hexVal a, hexVal b, hexVal c, hexVal d with
    | some va, some vb, some vc, some vd =>
      some (((va * 16 + vb) * 16 + vc) * 16 + vd, rest)
    | _, _, _, _ => none
  | _ => none

/-- String body parser, called after the opening quote; returns the decoded
string and the input after the closing quote.  Unescaped control characters
are rejected, as `JSON.parse` rejects them. -/
def parseStringBody : Nat → List Char → List Char → Option (String × List Char)
  | 0, _, _ => none
  | _, _, [] => none
  | fuel + 1, acc, c :: rest =>
    if c = '\"' then some (String.mk acc.reverse, rest)
    else if c = '\\' then
      match rest with
      | [] => none
      | e :: rest2 =>
        if e = '\"' then parseStringBody fuel ('\"' :: acc) rest2
        else if e = '\\' then parseStringBody fuel ('\\' :: acc) rest2
        else if e = '/' then parseStringBody fuel ('/' :: acc) rest2
        else if e = 'b' then parseStringBody fuel ('\x08' :: acc) rest2
        else if e = 'f' then parseStringBody fuel ('\x0c' :: acc) rest2
        else if e = 'n' then parseStringBody fuel ('\n' :: acc) rest2
        else if e = 'r' then parseStringBody fuel ('\r' :: acc) rest2
        else if e = 't' then parseStringBody fuel ('\t' :: acc) rest2
        else if e = 'u' then
          match parseHex4 rest2 with
          | some (n, rest3) => parseStringBody fuel (Char.ofNat n :: acc) rest3
          | none => none
        else none
    else if c.toNat < 32 then none
    else parseStringBody fuel (c :: acc) rest

/-- Natural-number value of a digit run. -/
def digitsToNat (ds : List Char) : Nat :=
  ds.foldl (fun a c => a * 10 + (c.toNat - '0'.toNat)) 0

/-- Number parser, following the JSON number grammar
`-? (0 | [1-9][0-9]*) (. [0-9]+)? ([eE] [+-]? [0-9]+)?`. -/
def parseNumber (s : List Char) : Option (Json × List Char) :=
  let (neg, s1) := match s with
    | '-' :: r => (true, r)
    | _ => (false, s)
  match s1.span isDigitCh with
  | ([], _) => none
  | (intDigits, s2) =>
    if intDigits.length > 1 ∧ intDigits.head? = some '0' then none
    else
      let (fracDigits, s3) := match s2 with
        | '.' :: r =>
          match r.span isDigitCh with
          | ([], _) => ([], '.' :: r)
          | (ds, r2) => (ds, r2)
        | _ => ([], s2)
      if s3 ≠ s2 ∧ fracDigits = [] then none
      else
        match s2, fracDigits with
        | '.' :: _, [] => none
        | _, _ =>
          let expPart : Option (Int × List Char) := match s3 with
            | 'e' :: r | 'E' :: r =>
              let (esign, r1) := match r with
                | '+' :: r2 => ((1 : Int), r2)
                | '-' :: r2 => ((-1 : Int), r2)
                | _ => ((1 : Int), r)
              match r1.span isDigitCh with
              | ([], _) => none
              | (eds, r2) => some (esign * (digitsToNat eds : Int), r2)
            | _ => some (0, s3)
          match expPart with
          | none => none
          | some (e, s4) =>
            let mantNat := digitsToNat (intDigits ++ fracDigits)
            let mant : Int := if neg then -(mantNat : Int) else (mantNat : Int)
            some (.num mant (e - (fracDigits.length : Int)), s4)

mutual

/-- Value parser; assumes leading whitespace has been skipped. -/
def parseValue : Nat → List Char → Option (Json × List Char)
  | 0, _ => none
  | _ + 1, [] => none
  | fuel + 1, c :: rest =>
    if c = '\x7b' then
      match skipWs rest with
      | '\x7d' :: r => some (.obj [], r)
      | s1 => match parseMembers fuel s1 with
        | some (ms, r) => some (.obj ms, r)
        | none => none
    else if c = '[' then
      match skipWs rest with
      | ']' :: r => some (.arr [], r)
      | s1 => match parseElems fuel s1 with
        | some (es, r) => some (.arr es, r)
        | none => none
    else if c = '\"' then
      match parseStringBody fuel [] rest with
      | some (str, r) => some (.str str, r)
      | none => none
    else if c = 't' then
      match rest with
      | 'r' :: 'u' :: 'e' :: r => some (.bool true, r)
      | _ => none
    else if c = 'f' then
      match rest with
      | 'a' :: 'l' :: 's' :: 'e' :: r => some (.bool false, r)
      | _ => none
    else if c = 'n' then
      match rest with
      | 'u' :: 'l' :: 'l' :: r => some (.null, r)
      | _ => none
    else parseNumber (c :: rest)

/-- Non-empty array-element list parser: value, then `,` and more elements or
the closing bracket. -/
def parseElems : Nat → List Char → Option (List Json × List Char)
  | 0, _ => none
  | fuel + 1, s =>
    match parseValue fuel s with
    | none => none
    | some (v, r) =>
      match skipWs r with
      | ',' :: r2 =>
        match parseElems fuel (skipWs r2) with
        | some (vs, r3) => some (v :: vs, r3)
        | none => none
      | ']' :: r2 => some ([v], r2)
      | _ => none

/-- Non-empty object-member list parser: `"key" : value`, then `,` and more
members or the closing brace. -/
def parseMembers : Nat → List Char → Option (List (String × Json) × List Char)
  | 0, _ => none
  | fuel + 1, s =>
    match s with
    | '\"' :: rest =>
      match parseStringBody fuel [] rest with
      | some (k, r) =>
        match skipWs r with
        | ':' :: r2 =>
          match parseValue fuel (skipWs r2) with
          | some (v, r3) =>
            match skipWs r3 with
            | ',' :: r4 =>
              match parseMembers fuel (skipWs r4) with
              | some (ms, r5) => some ((k, v) :: ms, r5)
              | none => none
            | '\x7d' :: r4 => some ([(k, v)], r4)
            | _ => none
          | none => none
        | _ => none
      | none => none
    | _ => none

end

/-- The whole of `JSON.parse` on a character list: optional surrounding
whitespace around a single value; anything left over is a syntax error.  The
fuel bound is generous: every two fuel steps consume at least one input
character. -/
def parseJson (s : List Char) : Option Json :=
  match parseValue (2 * s.length + 4) (skipWs s) with
  | some (v, r) => if skipWs r = [] then some v else none
  | none => none

/-! ## JSON extraction from the model reply (server.cjs lines 87-100)

The server runs

  text.match(/```json\s*([\s\S]*?)\s*```|(\x7b[\s\S]*\x7d)/)

and takes `jsonMatch[1] || jsonMatch[2]`, falling back to the whole text when
there is no match.  The functions below implement that regular expression's
semantics directly: the engine scans start positions left to right and at
each position tries alternative 1 (a ```json fence: the greedy `\s*`, then
the lazy group ending at the first position from which `\s*` + a closing
fence matches — equivalently, the text up to the first later ``` with its
trailing whitespace stripped) and then alternative 2 (a `\x7b`, with the
greedy `[\s\S]*\x7d` reaching to the last `\x7d` of the whole remaining
text).  `\s` is modelled by the common JavaScript whitespace characters. -/

/-- JavaScript whitespace as matched by `\s` and removed by `trim` (the
common characters; exotic Unicode space separators are not modelled). -/
def jsWs (c : Char) : Bool :=
  c = ' ' || c = '\t' || c = '\n' || c = '\r' ||
  c = '\x0b' || c = '\x0c' || c = '\xa0' || c = '﻿'

/-- The `text.trim()` call of the server on the model reply. -/
def jsTrim (s : List Char) : List Char :=
  ((s.dropWhile jsWs).reverse.dropWhile jsWs).reverse

/-- Test that the second list starts with the characters of the first. -/
def matchesChars : List Char → List Char → Bool
  | [], _ => true
  | _ :: _, [] => false
  | p :: ps, c :: cs => p = c && matchesChars ps cs

/-- Test for a ``` fence at the head of the list. -/
def hasFenceAt (s : List Char) : Bool :=
  matchesChars ['\x60', '\x60', '\x60'] s

/-- Test for a ```json opener at the head of the list. -/
def hasJsonFenceAt (s : List Char) : Bool :=
  matchesChars ['\x60', '\x60', '\x60', 'j', 's', 'o', 'n'] s

/-- Split at the first ``` fence: the text before it and the text after it.
`none` when no fence occurs. -/
def splitAtFence : List Char → Option (List Char × List Char)
  | [] => none
  | c :: cs =>
    if hasFenceAt (c :: cs) then some ([], cs.drop 2)
    else
      match splitAtFence cs with
      | some (pre, post) => some (c :: pre, post)
      | none => none

/-- Strip trailing JavaScript whitespace. -/
def rtrimWs (s : List Char) : List Char :=
  (s.reverse.dropWhile jsWs).reverse

/-- Alternative 1 of the extraction regex at the current position: a
```json opener, then the lazily matched group, which runs to the first
closing ``` and loses its trailing whitespace to the `\s*` before the
closing fence. -/
def fenceAlt (s : List Char) : Option (List Char) :=
  if hasJsonFenceAt s then
    match splitAtFence ((s.drop 7).dropWhile jsWs) with
    | some (pre, _) => some (rtrimWs pre)
    | none => none
  else none

/-- Prefix of the list up to and including its last `\x7d`, `none` when the
list has no `\x7d`. -/
def takeToLastRBrace : List Char → Option (List Char)
  | [] => none
  | c :: cs =>
    match takeToLastRBrace cs with
    | some r => some (c :: r)
    | none => if c = '\x7d' then some [c] else none

/-- Alternative 2 of the extraction regex at the current position: an opening
`\x7b` with the greedy body reaching the last `\x7d` of the remaining text. -/
def braceAlt : List Char → Option (List Char)
  | '\x7b' :: cs =>
    match takeToLastRBrace cs with
    | some r => some ('\x7b' :: r)
    | none => none
  | _ => none

/-- Leftmost match of the extraction regex: scan start positions left to
right, trying alternative 1 and then alternative 2 at each. -/
def firstMatch : List Char → Option (List Char)
  | [] => none
  | c :: cs =>
    match fenceAlt (c :: cs) with
    | some g => some g
    | none =>
      match braceAlt (c :: cs) with
      | some g => some g
      | none => firstMatch cs

/-- The extracted JSON text: the matched group, or the whole text when the
regex does not match.  When alternative 1 matches with an empty group the
code's `jsonMatch[1] || jsonMatch[2]` makes `JSON.parse` receive `undefined`
instead of `""`; both fail to parse identically, so the empty group is kept
as the (unparseable) empty text here. -/
def extractJson (text : List Char) : List Char :=
  match firstMatch text with
  | some g => g
  | none => text

/-! ## Safety-check response interpretation

`serverRespond` models the `/run-safety-check` handler from the trimmed model
reply onward (server.cjs lines 87-113): empty-reply check, extraction,
`JSON.parse`, shape validation; every `throw` becomes the 500 response
`\x7b detail: err.message \x7d`.  `clientInterpret` models the response
handling of `MedicalHistoryCheck.handleAiCheck` (part_005 lines 316-349):
a non-2xx response or a thrown `TypeError` becomes the error result, a 200
response is mapped to a verdict by the two case-insensitive comparisons. -/

/-- Verdicts the doctor-facing UI can display (`AIResult['status']`). -/
inductive Verdict where
  | safe
  | warning
  | highRisk
  | error
deriving DecidableEq, Repr

/-- The `AIResult` record set by `setAiResult`. -/
structure AIResult where
  status : Verdict
  message : String
  suggestions : List String
deriving DecidableEq, Repr

/-- Property lookup in a parsed object: the last binding of the key wins, as
in a JavaScript object literal with duplicate keys. -/
def lookupLast (ms : List (String × Json)) (k : String) : Option Json :=
  ms.foldl (fun acc m => if m.1 = k then some m.2 else acc) none

/-- JavaScript property access `v[k]` on a parsed JSON value: `none` models
`undefined`; access on `null` throws a `TypeError` (`Except.error`). -/
def jsGetMember : Json → String → Except Unit (Option Json)
  | .null, _ => .error ()
  | .obj ms, k => .ok (lookupLast ms k)
  | _, _ => .ok none

/-- JavaScript truthiness of a parsed JSON value.  (`JSON.parse` underflow of
tiny number literals to `0` is not modelled.) -/
def truthy : Json → Bool
  | .null => false
  | .bool b => b
  | .num m _ => m ≠ 0
  | .str s => s ≠ ""
  | .arr _ => true
  | .obj _ => true

/-- Truthiness of a possibly-`undefined` value. -/
def truthyOpt : Option Json → Bool
  | none => false
  | some v => truthy v

/-- The `Array.isArray` test on a possibly-`undefined` value. -/
def isArrOpt : Option Json → Bool
  | some (.arr _) => true
  | _ => false

/-- Shape validation of the parsed reply (server.cjs lines 102-106):
`if (!parsed.overall_assessment || !Array.isArray(parsed.flags)) throw ...`.
Property access on a parsed `null` throws a `TypeError` that the handler's
catch also turns into a 500; its message is abstracted as "TypeError". -/
def serverValidate (parsed : Json) : Except String Json :=
  match jsGetMember parsed "overall_assessment" with
  | .error _ => .error "TypeError"
  | .ok oa =>
    if truthyOpt oa = false then
      .error "AI response structure does not match expected format"
    else
      match jsGetMember parsed "flags" with
      | .error _ => .error "TypeError"
      | .ok fl =>
        if isArrOpt fl = false then
          .error "AI response structure does not match expected format"
        else .ok parsed

/-- The `/run-safety-check` handler from the model reply onward: trim, check
for an empty reply, extract the JSON text, parse it, validate its shape.  An
`Except.error` is the 500 response carrying the thrown message as `detail`. -/
def serverRespond (content : List Char) : Except String Json :=
  let text := jsTrim content
  if text = [] then .error "Empty AI response"
  else
    match parseJson (extractJson text) with
    | none => .error "AI returned invalid JSON format"
    | some parsed => serverValidate parsed

/-- Rendering of a value inside a template literal.  String values render as
themselves; the renderings of the other value kinds are abstracted (no claim
depends on them). -/
def jsToDisplay : Json → String
  | .str s => s
  | .null => "null"
  | .bool b => if b then "true" else "false"
  | .num _ _ => "(number)"
  | .arr _ => "(array)"
  | .obj _ => "(object)"

/-- Rendering of a possibly-`undefined` value inside a template literal. -/
def undefDisplay : Option Json → String
  | some v => jsToDisplay v
  | none => "undefined"

/-- ASCII lowercasing of one character. -/
def lowerChar (c : Char) : Char :=
  if 'A' ≤ c ∧ c ≤ 'Z' then Char.ofNat (c.toNat + 32) else c

/-- ASCII lowercasing of a string, modelling the `toLowerCase` calls for the
compared ASCII literals; Unicode special casings are not modelled. -/
def lowerString (s : String) : String :=
  String.mk (s.data.map lowerChar)

/-- The optional-chained `overall_assessment?.toLowerCase()`: `undefined` and
`null` short-circuit to `undefined`, a string is lowercased, and calling
`toLowerCase` on any other value throws a `TypeError`. -/
def assessLower : Option Json → Except Unit (Option String)
  | none => .ok none
  | some .null => .ok none
  | some (.str s) => .ok (some (lowerString s))
  | some _ => .error ()

/-- One line of the combined message:
`` `$\x7bf.issue\x7d with $\x7bf.problematic_drug\x7d: $\x7bf.explanation\x7d` ``. -/
def flagLine (f : Json) : Except Unit String := do
  let issue ← jsGetMember f "issue"
  let drug ← jsGetMember f "problematic_drug"
  let expl ← jsGetMember f "explanation"
  return undefDisplay issue ++ " with " ++ undefDisplay drug ++ ": " ++ undefDisplay expl

/-- One flag's contribution to the suggestion list:
`flags.map(f => f.suggested_alternative).filter(Boolean)` keeps only truthy
values. -/
def suggestionOf (f : Json) : Except Unit (Option String) := do
  let s ← jsGetMember f "suggested_alternative"
  return match s with
    | some v => if truthy v then some (jsToDisplay v) else none
    | none => none

/-- The client-side mapping of a 200 response (part_005 lines 323-338): the
two case-insensitive comparisons pick the verdict with `'safe'` as the
untouched initial value, then the message and suggestion list are built from
`flags`.  Any thrown `TypeError` is an `Except.error`. -/
def clientMap (parsed : Json) : Except Unit AIResult := do
  let oa ← jsGetMember parsed "overall_assessment"
  let lower ← assessLower oa
  let status : Verdict :=
    if lower = some "caution" then .warning
    else if lower = some "high-risk" then .highRisk
    else .safe
  let fl ← jsGetMember parsed "flags"
  match fl with
  | some (.arr fs) =>
    let lines ← fs.mapM flagLine
    let message :=
      if fs.length > 0 then String.intercalate "\n" lines
      else "AI analysis found no major issues."
    let sugs ← fs.mapM suggestionOf
    return { status := status, message := message, suggestions := sugs.reduceOption }
  | _ => .error ()

/-- The catch-all of `handleAiCheck`: a non-2xx response yields the error
result carrying the 500 detail; a 200 response is mapped, with any thrown
`TypeError` also caught into the error result. -/
def clientInterpret (resp : Except String Json) : AIResult :=
  match resp with
  | .error d =>
    { status := .error
      message := "Failed to get AI analysis: API Error 500: " ++ d
      suggestions := [] }
  | .ok parsed =>
    match clientMap parsed with
    | .ok r => r
    | .error _ =>
      { status := .error
        message := "Failed to get AI analysis: TypeError"
        suggestions := [] }

/-- The complete response interpretation seen by the doctor: server handler
composed with the client-side mapping. -/
def interpretResponse (content : List Char) : AIResult :=
  clientInterpret (serverRespond content)

/-- The interpretation applied after a successful parse: validation plus the
client-side mapping.  Used to state properties of the assessment mapping on
already-parsed values. -/
def postParse (parsed : Json) : AIResult :=
  clientInterpret (serverValidate parsed)

/-- A reply consisting of a JSON text wrapped in a ```json fenced code block,
as in the spec's scenario: the opener, a newline, the text, a newline and the
closing fence. -/
def wrapFence (j : List Char) : List Char :=
  '\x60' :: '\x60' :: '\x60' :: 'j' :: 's' :: 'o' :: 'n' :: '\n' ::
    (j ++ ('\n' :: '\x60' :: '\x60' :: '\x60' :: []))

/-! ## Timing slots -/

/-- One of the three timing slots of a medication. -/
inductive Slot where
  | morning
  | afternoon
  | night
deriving DecidableEq, Repr

/-- The fixed hour of each slot, as set by `setHours` in `createLogEntry`. -/
def slotHour : Slot → Nat
  | .morning => 8
  | .afternoon => 13
  | .night => 20

/-- Whether a timing set selects a slot. -/
def slotSelected (t : Timing) : Slot → Bool
  | .morning => t.morning
  | .afternoon => t.afternoon
  | .night => t.night

/-- Number of selected slots of a timing set. -/
def slotCount (t : Timing) : Nat :=
  (if t.morning then 1 else 0) + (if t.afternoon then 1 else 0) +
    (if t.night then 1 else 0)

/-! ## Helper lemmas -/

/-- The code's integer rounding agrees with the spec's
`round(num / den × 100)` for a positive denominator. -/
lemma specRound_eq (t d : Nat) (hd : 0 < d) :
    specRound t d = (2 * (100 * t) + d) / (2 * d) := by
  have hd' : ((d : ℚ)) ≠ 0 := Nat.cast_ne_zero.mpr hd.ne'
  have h1 : (t : ℚ) / (d : ℚ) * 100 + 1 / 2
      = ((2 * (100 * t) + d : ℕ) : ℚ) / ((2 * d : ℕ) : ℚ) := by
    push_cast
    field_simp
    ring
  rw [specRound, h1, Nat.floor_div_nat, Nat.floor_natCast]

/-- The taken and skipped counts together never exceed the total. -/
lemma countStatus_taken_add_skipped_le (l : List LogEntry) :
    countStatus l .taken + countStatus l .skipped ≤ l.length := by
  induction l with
  | nil => simp [countStatus]
  | cons e t ih =>
    cases hs : e.status <;>
      simp only [countStatus, List.filter_cons, hs, List.length_cons] at ih ⊢ <;>
      simp_all <;> omega

/-! ## Double-arithmetic lemmas

Bounds on the correctly-rounded double operations, culminating in
`jsRound_near_spec`: the double evaluation of
`Math.round((t / d) * 100)` is within 1 of the exact rational rounding. -/

/-- The fuel-based binary logarithm agrees with `Nat.log2` once the fuel
dominates the argument. -/
lemma natLog2Aux_eq (fuel : Nat) : ∀ n, n ≤ fuel → natLog2Aux fuel n = Nat.log2 n := by
  induction fuel with
  | zero =>
    intro n hn
    have : n = 0 := by omega
    subst this
    rw [Nat.log2]
    rfl
  | succ f ih =>
    intro n hn
    rw [Nat.log2]
    by_cases h2 : 2 ≤ n
    · have hdf : n / 2 ≤ f := by omega
      have hstep : natLog2Aux (f + 1) n = natLog2Aux f (n / 2) + 1 := by
        simp [natLog2Aux, h2]
      rw [hstep, ih _ hdf, if_pos h2]
    · have hstep : natLog2Aux (f + 1) n = 0 := by
        simp [natLog2Aux, h2]
      rw [hstep, if_neg h2]

/-- The code's binary logarithm is `Nat.log2`. -/
lemma natLog2_eq (n : Nat) : natLog2 n = Nat.log2 n :=
  natLog2Aux_eq n n (le_refl n)

/-- Lower sandwich bound of the binary logarithm. -/
lemma natLog2_self_le (n : Nat) (hn : n ≠ 0) : 2 ^ natLog2 n ≤ n := by
  rw [natLog2_eq]
  exact Nat.log2_self_le hn

/-- Upper sandwich bound of the binary logarithm. -/
lemma natLog2_lt_self (n : Nat) : n < 2 ^ (natLog2 n + 1) := by
  rw [natLog2_eq]
  exact Nat.lt_log2_self

/-- Comparing binary logarithms through a power-of-two ratio bound. -/
lemma natLog2_lt_add (a b j : Nat) (ha : 0 < a) (h : a ≤ 2 ^ j * b) :
    natLog2 a < natLog2 b + j + 1 := by
  have h1 : 2 ^ natLog2 a ≤ a := natLog2_self_le a ha.ne'
  have h2 : b < 2 ^ (natLog2 b + 1) := natLog2_lt_self b
  have h3 : 2 ^ natLog2 a < 2 ^ (natLog2 b + 1 + j) := by
    calc 2 ^ natLog2 a ≤ a := h1
      _ ≤ 2 ^ j * b := h
      _ < 2 ^ j * 2 ^ (natLog2 b + 1) :=
          mul_lt_mul_of_pos_left h2 (Nat.pow_pos (by norm_num))
      _ = 2 ^ (natLog2 b + 1 + j) := by rw [← pow_add]; ring_nf
  have := (Nat.pow_lt_pow_iff_right (a := 2) (by norm_num)).mp h3
  omega

/-- Two-sided bound of round-to-nearest: the rounded quotient is within half
an ulp of the exact quotient, stated multiplicatively over `ℕ`. -/
lemma roundNearestEven_bounds (num den : Nat) (hd : 0 < den) :
    2 * den * roundNearestEven num den ≤ 2 * num + den ∧
    2 * num ≤ 2 * den * roundNearestEven num den + den := by
  simp only [roundNearestEven]
  obtain ⟨q, r, hq, hr⟩ : ∃ q r, num / den = q ∧ num % den = r := ⟨_, _, rfl, rfl⟩
  rw [hq, hr]
  have hdm : den * q + r = num := by rw [← hq, ← hr]; exact Nat.div_add_mod num den
  have hmlt : r < den := by rw [← hr]; exact Nat.mod_lt _ hd
  split_ifs with h1 h2 h3 <;> constructor <;> nlinarith [hdm, hmlt]

/-- Round-to-nearest never overshoots a bound that the exact quotient
satisfies at a representable value. -/
lemma roundNearestEven_le_of_le (num den B : Nat) (hd : 0 < den) (h : num ≤ B * den) :
    roundNearestEven num den ≤ B := by
  have h1 := (roundNearestEven_bounds num den hd).1
  by_contra hc
  push_neg at hc
  have h2 : 2 * den * (B + 1) ≤ 2 * den * roundNearestEven num den :=
    Nat.mul_le_mul_left _ hc
  nlinarith

/-- Values of dyadics are nonnegative. -/
lemma Dyadic.val_nonneg (x : Dyadic) : 0 ≤ x.val := by
  rw [Dyadic.val]
  positivity

/-- Comparison of a dyadic value with a natural bound, in terms of the
mantissa. -/
lemma Dyadic.val_le_iff (x : Dyadic) (B : Nat) : x.val ≤ (B : ℚ) ↔ x.m ≤ B * 2 ^ x.k := by
  rw [Dyadic.val]
  have h2k : ((2 ^ x.k : ℕ) : ℚ) = (2 : ℚ) ^ x.k := by push_cast; ring
  rw [h2k, div_le_iff₀ (by positivity)]
  rw [show (B : ℚ) * 2 ^ x.k = ((B * 2 ^ x.k : ℕ) : ℚ) by push_cast; ring]
  exact Nat.cast_le

/-- Upper half-ulp error bound of the rounded quotient at scale `2 ^ k`. -/
lemma rneD_val_le (num den k : Nat) (hd : 0 < den) :
    Dyadic.val ⟨roundNearestEven (num * 2 ^ k) den, k⟩ ≤
      (num : ℚ) / (den : ℚ) + 1 / (2 * 2 ^ k) := by
  have hb := (roundNearestEven_bounds (num * 2 ^ k) den hd).1
  have hbq : (2 * den * roundNearestEven (num * 2 ^ k) den : ℚ)
      ≤ 2 * (num * 2 ^ k) + den := by exact_mod_cast hb
  have hdq : (0 : ℚ) < den := by exact_mod_cast hd
  have hpk : (0 : ℚ) < 2 ^ k := by positivity
  rw [Dyadic.val]
  have h2k : ((2 ^ k : ℕ) : ℚ) = (2 : ℚ) ^ k := by push_cast; ring
  rw [h2k, div_le_iff₀ hpk]
  have hrhs : ((num : ℚ) / den + 1 / (2 * 2 ^ k)) * 2 ^ k
      = (2 * (num * 2 ^ k) + den) / (2 * den) := by
    field_simp
    ring
  rw [hrhs, le_div_iff₀ (by positivity)]
  push_cast
  linarith

/-- Lower half-ulp error bound of the rounded quotient at scale `2 ^ k`. -/
lemma le_rneD_val (num den k : Nat) (hd : 0 < den) :
    (num : ℚ) / (den : ℚ) - 1 / (2 * 2 ^ k) ≤
      Dyadic.val ⟨roundNearestEven (num * 2 ^ k) den, k⟩ := by
  have hb := (roundNearestEven_bounds (num * 2 ^ k) den hd).2
  have hbq : (2 * (num * 2 ^ k) : ℚ)
      ≤ 2 * den * roundNearestEven (num * 2 ^ k) den + den := by exact_mod_cast hb
  have hdq : (0 : ℚ) < den := by exact_mod_cast hd
  have hpk : (0 : ℚ) < 2 ^ k := by positivity
  rw [Dyadic.val]
  have h2k : ((2 ^ k : ℕ) : ℚ) = (2 : ℚ) ^ k := by push_cast; ring
  rw [h2k, le_div_iff₀ hpk]
  have hlhs : ((num : ℚ) / den - 1 / (2 * 2 ^ k)) * 2 ^ k
      = (2 * (num * 2 ^ k) - den) / (2 * den) := by
    field_simp
    ring
  rw [hlhs, div_le_iff₀ (by positivity)]
  push_cast
  linarith

/-- The rounded quotient respects a natural bound on the exact quotient. -/
lemma rneD_val_le_B (num den k B : Nat) (hd : 0 < den) (h : num ≤ B * den) :
    Dyadic.val ⟨roundNearestEven (num * 2 ^ k) den, k⟩ ≤ (B : ℚ) := by
  have h' : num * 2 ^ k ≤ (B * 2 ^ k) * den := by
    calc num * 2 ^ k ≤ (B * den) * 2 ^ k := Nat.mul_le_mul_right _ h
      _ = (B * 2 ^ k) * den := by ring
  have hle := roundNearestEven_le_of_le (num * 2 ^ k) den (B * 2 ^ k) hd h'
  rw [Dyadic.val]
  have h2k : ((2 ^ k : ℕ) : ℚ) = (2 : ℚ) ^ k := by push_cast; ring
  rw [h2k, div_le_iff₀ (by positivity)]
  calc (roundNearestEven (num * 2 ^ k) den : ℚ) ≤ ((B * 2 ^ k : ℕ) : ℚ) := by
        exact_mod_cast hle
    _ = (B : ℚ) * 2 ^ k := by push_cast; ring

/-- The floored binary exponent never exceeds the logarithm difference. -/
lemma floorLog2_le (num den : Nat) :
    floorLog2 num den ≤ (natLog2 num : Int) - (natLog2 den : Int) := by
  simp only [floorLog2]
  split <;> omega

/-- Binary exponents below 52 put the ulp exponent below zero. -/
lemma ulpExp_lt_zero (e : Int) (h : e < 52) : ulpExp e < 0 := by
  simp only [ulpExp]
  split <;> omega

/-- Nonpositive binary exponents give at least 52 fractional bits. -/
lemma le_ulpExp_toNat (e : Int) (h : e ≤ 0) : 52 ≤ (-(ulpExp e)).toNat := by
  simp only [ulpExp]
  split <;> omega

/-- Unfolding of `flD` in the fractional (negative ulp exponent) branch. -/
lemma flD_eq_neg (num den : Nat) (hs : ulpExp (floorLog2 num den) < 0) :
    flD num den =
      ⟨roundNearestEven (num * 2 ^ (-(ulpExp (floorLog2 num den))).toNat) den,
        (-(ulpExp (floorLog2 num den))).toNat⟩ := by
  simp only [flD]
  rw [if_neg (by omega)]

/-- A quotient at most 1 has a nonpositive binary exponent. -/
lemma floorLog2_nonpos (t d : Nat) (ht : 0 < t) (h : t ≤ d) : floorLog2 t d ≤ 0 := by
  have hlog : natLog2 t ≤ natLog2 d := by
    have := natLog2_lt_add t d 0 ht (by simpa using h)
    omega
  have := floorLog2_le t d
  omega

/-- The double quotient of `t / d` with `t ≤ d` is at most 1. -/
lemma jsDivNat_le_one (t d : Nat) (hd : 0 < d) (h : t ≤ d) :
    (jsDivNat t d).val ≤ 1 := by
  rw [jsDivNat]
  by_cases h0 : t = 0
  · rw [if_pos h0, Dyadic.val]
    norm_num
  · rw [if_neg h0]
    have ht : 0 < t := Nat.pos_of_ne_zero h0
    have hc : floorLog2 t d ≤ 0 := floorLog2_nonpos t d ht h
    have hs : ulpExp (floorLog2 t d) < 0 := ulpExp_lt_zero _ (by omega)
    rw [flD_eq_neg t d hs]
    have hB := rneD_val_le_B t d (-(ulpExp (floorLog2 t d))).toNat 1 hd (by omega)
    simpa using hB

/-- The double quotient of `t / d` with `t ≤ d` is within `2 ^ (-53)` of the
exact quotient. -/
lemma jsDivNat_near (t d : Nat) (hd : 0 < d) (h : t ≤ d) :
    (t : ℚ) / (d : ℚ) - 1 / 2 ^ 53 ≤ (jsDivNat t d).val ∧
    (jsDivNat t d).val ≤ (t : ℚ) / (d : ℚ) + 1 / 2 ^ 53 := by
  rw [jsDivNat]
  by_cases h0 : t = 0
  · subst h0
    rw [if_pos rfl, Dyadic.val]
    norm_num
  · rw [if_neg h0]
    have ht : 0 < t := Nat.pos_of_ne_zero h0
    have hc : floorLog2 t d ≤ 0 := floorLog2_nonpos t d ht h
    have hs : ulpExp (floorLog2 t d) < 0 := ulpExp_lt_zero _ (by omega)
    rw [flD_eq_neg t d hs]
    have hk : 52 ≤ (-(ulpExp (floorLog2 t d))).toNat := le_ulpExp_toNat _ hc
    have hub := rneD_val_le t d (-(ulpExp (floorLog2 t d))).toNat hd
    have hlb := le_rneD_val t d (-(ulpExp (floorLog2 t d))).toNat hd
    have herr : (1 : ℚ) / (2 * 2 ^ (-(ulpExp (floorLog2 t d))).toNat) ≤ 1 / 2 ^ 53 := by
      rw [show (2 : ℚ) * 2 ^ (-(ulpExp (floorLog2 t d))).toNat
          = 2 ^ ((-(ulpExp (floorLog2 t d))).toNat + 1) by ring]
      apply one_div_le_one_div_of_le (by positivity)
      apply pow_le_pow_right₀ (by norm_num)
      omega
    constructor <;> linarith

/-- The double product by 100 of a quotient at most 1 stays at most 100. -/
lemma jsMul100_le_100 (x : Dyadic) (hx : x.val ≤ 1) : (jsMul100 x).val ≤ 100 := by
  rw [jsMul100]
  by_cases h0 : x.m = 0
  · rw [if_pos h0, Dyadic.val]
    norm_num
  · rw [if_neg h0]
    have hm : 0 < x.m := Nat.pos_of_ne_zero h0
    have hmk : x.m ≤ 2 ^ x.k := by
      have := (Dyadic.val_le_iff x 1).mp (by simpa using hx)
      simpa using this
    have hden : 0 < 2 ^ x.k := Nat.pow_pos (by norm_num)
    have hnum : 100 * x.m ≤ 100 * 2 ^ x.k := Nat.mul_le_mul_left _ hmk
    have hlog : natLog2 (100 * x.m) < natLog2 (2 ^ x.k) + 8 := by
      have h128 : 100 * x.m ≤ 2 ^ 7 * 2 ^ x.k := by
        calc 100 * x.m ≤ 100 * 2 ^ x.k := hnum
          _ ≤ 128 * 2 ^ x.k := Nat.mul_le_mul_right _ (by norm_num)
          _ = 2 ^ 7 * 2 ^ x.k := by norm_num
      have := natLog2_lt_add (100 * x.m) (2 ^ x.k) 7 (by positivity) h128
      omega
    have hc : floorLog2 (100 * x.m) (2 ^ x.k) ≤ 7 := by
      have := floorLog2_le (100 * x.m) (2 ^ x.k)
      omega
    have hs : ulpExp (floorLog2 (100 * x.m) (2 ^ x.k)) < 0 := ulpExp_lt_zero _ (by omega)
    rw [flD_eq_neg _ _ hs]
    exact rneD_val_le_B (100 * x.m) (2 ^ x.k) _ 100 hden hnum

/-- The double product by 100 of a quotient at most 1 is within one half of
the exact product. -/
lemma jsMul100_near (x : Dyadic) (hx : x.val ≤ 1) :
    100 * x.val - 1 / 2 ≤ (jsMul100 x).val ∧ (jsMul100 x).val ≤ 100 * x.val + 1 / 2 := by
  rw [jsMul100]
  by_cases h0 : x.m = 0
  · rw [if_pos h0]
    have hv : x.val = 0 := by rw [Dyadic.val, h0]; norm_num
    rw [hv, Dyadic.val]
    norm_num
  · rw [if_neg h0]
    have hm : 0 < x.m := Nat.pos_of_ne_zero h0
    have hmk : x.m ≤ 2 ^ x.k := by
      have := (Dyadic.val_le_iff x 1).mp (by simpa using hx)
      simpa using this
    have hden : 0 < 2 ^ x.k := Nat.pow_pos (by norm_num)
    have hlog : natLog2 (100 * x.m) < natLog2 (2 ^ x.k) + 8 := by
      have h128 : 100 * x.m ≤ 2 ^ 7 * 2 ^ x.k := by
        calc 100 * x.m ≤ 100 * 2 ^ x.k := Nat.mul_le_mul_left _ hmk
          _ ≤ 128 * 2 ^ x.k := Nat.mul_le_mul_right _ (by norm_num)
          _ = 2 ^ 7 * 2 ^ x.k := by norm_num
      have := natLog2_lt_add (100 * x.m) (2 ^ x.k) 7 (by positivity) h128
      omega
    have hc : floorLog2 (100 * x.m) (2 ^ x.k) ≤ 7 := by
      have := floorLog2_le (100 * x.m) (2 ^ x.k)
      omega
    have hs : ulpExp (floorLog2 (100 * x.m) (2 ^ x.k)) < 0 := ulpExp_lt_zero _ (by omega)
    rw [flD_eq_neg _ _ hs]
    have hub := rneD_val_le (100 * x.m) (2 ^ x.k)
      (-(ulpExp (floorLog2 (100 * x.m) (2 ^ x.k)))).toNat hden
    have hlb := le_rneD_val (100 * x.m) (2 ^ x.k)
      (-(ulpExp (floorLog2 (100 * x.m) (2 ^ x.k)))).toNat hden
    have hval : ((100 * x.m : ℕ) : ℚ) / ((2 ^ x.k : ℕ) : ℚ) = 100 * x.val := by
      rw [Dyadic.val]
      push_cast
      ring
    have herr : (1 : ℚ) / (2 * 2 ^ (-(ulpExp (floorLog2 (100 * x.m) (2 ^ x.k)))).toNat)
        ≤ 1 / 2 := by
      apply one_div_le_one_div_of_le (by norm_num)
      have h1 : (1 : ℚ) ≤ 2 ^ (-(ulpExp (floorLog2 (100 * x.m) (2 ^ x.k)))).toNat :=
        one_le_pow₀ (by norm_num)
      linarith
    rw [hval] at hub hlb
    constructor <;> linarith

/-- The code's `Math.round` on a nonnegative dyadic is the floor of the
value plus one half. -/
lemma jsMathRound_eq_floor (x : Dyadic) : jsMathRound x = Nat.floor (x.val + 1 / 2) := by
  rw [jsMathRound, Dyadic.val]
  have h1 : (x.m : ℚ) / ((2 ^ x.k : ℕ) : ℚ) + 1 / 2
      = ((2 * x.m + 2 ^ x.k : ℕ) : ℚ) / ((2 * 2 ^ x.k : ℕ) : ℚ) := by
    have h2 : ((2 : ℚ)) ^ x.k ≠ 0 := by positivity
    push_cast
    field_simp
    ring
  rw [h1, Nat.floor_div_nat, Nat.floor_natCast]

/-- Rounding respects a natural bound on the value. -/
lemma jsMathRound_le (x : Dyadic) (B : Nat) (h : x.val ≤ (B : ℚ)) : jsMathRound x ≤ B := by
  have hm := (Dyadic.val_le_iff x B).mp h
  rw [jsMathRound]
  have hpos : 0 < 2 ^ x.k := Nat.pow_pos (by norm_num)
  calc (2 * x.m + 2 ^ x.k) / (2 * 2 ^ x.k)
      ≤ (2 * (B * 2 ^ x.k) + 2 ^ x.k) / (2 * 2 ^ x.k) := Nat.div_le_div_right (by omega)
    _ = ((2 * B + 1) * 2 ^ x.k) / (2 * 2 ^ x.k) := by
        rw [show 2 * (B * 2 ^ x.k) + 2 ^ x.k = (2 * B + 1) * 2 ^ x.k by ring]
    _ = (2 * B + 1) / 2 := Nat.mul_div_mul_right _ _ hpos
    _ = B := by omega

/-- Dividing a positive number by itself is exact: the double is 1, stored
as mantissa `2 ^ 52` with 52 fractional bits. -/
lemma flD_self (d : Nat) (hd : 0 < d) : flD d d = ⟨2 ^ 52, 52⟩ := by
  have hc : floorLog2 d d = 0 := by
    simp only [floorLog2, le2pow, sub_self]
    norm_num
  have hs : ulpExp (floorLog2 d d) < 0 := by
    rw [hc]
    decide
  rw [flD_eq_neg d d hs, hc]
  have hk : (-(ulpExp (0 : Int))).toNat = 52 := by decide
  rw [hk]
  have hq : roundNearestEven (d * 2 ^ 52) d = 2 ^ 52 := by
    simp only [roundNearestEven, Nat.mul_mod_right, Nat.mul_div_cancel_left _ hd]
    simp [hd]
  rw [hq]

/-- When every counted event is taken, the double pipeline returns
exactly 100. -/
lemma jsRound_eq_100 (d : Nat) (hd : 0 < d) :
    jsMathRound (jsMul100 (jsDivNat d d)) = 100 := by
  rw [jsDivNat, if_neg (by omega), flD_self d hd]
  decide

/-- The double evaluation of `Math.round((t / d) * 100)` is within 1 of the
exact rational rounding `specRound`. -/
lemma jsRound_near_spec (t d : Nat) (hd : 0 < d) (h : t ≤ d) :
    jsMathRound (jsMul100 (jsDivNat t d)) ≤ specRound t d + 1 ∧
    specRound t d ≤ jsMathRound (jsMul100 (jsDivNat t d)) + 1 := by
  have h1 := jsDivNat_near t d hd h
  have h1le := jsDivNat_le_one t d hd h
  have h2 := jsMul100_near (jsDivNat t d) h1le
  have hdq : (0 : ℚ) < d := by exact_mod_cast hd
  have hbound : (100 : ℚ) / 2 ^ 53 ≤ 1 / 2 := by norm_num
  have hvn := Dyadic.val_nonneg (jsMul100 (jsDivNat t d))
  have hxu : (jsMul100 (jsDivNat t d)).val ≤ (t : ℚ) / d * 100 + 1 := by
    nlinarith [h1.2, h2.2]
  have hxl : (t : ℚ) / d * 100 - 1 ≤ (jsMul100 (jsDivNat t d)).val := by
    nlinarith [h1.1, h2.1]
  rw [jsMathRound_eq_floor]
  constructor
  · have hstep : (jsMul100 (jsDivNat t d)).val + 1 / 2
        ≤ ((t : ℚ) / d * 100 + 1 / 2) + 1 := by linarith
    calc Nat.floor ((jsMul100 (jsDivNat t d)).val + 1 / 2)
        ≤ Nat.floor (((t : ℚ) / d * 100 + 1 / 2) + 1) := Nat.floor_le_floor hstep
      _ = specRound t d + 1 := by
          rw [Nat.floor_add_one (by positivity)]
          rfl
  · have hstep : (t : ℚ) / d * 100 + 1 / 2
        ≤ ((jsMul100 (jsDivNat t d)).val + 1 / 2) + 1 := by linarith
    calc specRound t d = Nat.floor ((t : ℚ) / d * 100 + 1 / 2) := rfl
      _ ≤ Nat.floor (((jsMul100 (jsDivNat t d)).val + 1 / 2) + 1) :=
          Nat.floor_le_floor hstep
      _ = Nat.floor ((jsMul100 (jsDivNat t d)).val + 1 / 2) + 1 := by
          rw [Nat.floor_add_one (by linarith)]

/-! ## Claim C1 — adherence formula -/

/-- A dose event marked skipped, scheduled on day 0 at 08:00. -/
def skippedMorning : LogEntry :=
  ⟨"p1", "pa1", "m1", "Amoxicillin", "500mg", 0, 8, .skipped, none⟩

/-- A dose event marked taken, for the divergence list. -/
def takenDivLog : LogEntry :=
  ⟨"p9", "pa9", "m1", "Aspirin", "81mg", 0, 8, .taken, some 1⟩

/-- A dose event marked missed, for the divergence list. -/
def missedDivLog : LogEntry :=
  ⟨"p9", "pa9", "m1", "Aspirin", "81mg", 0, 13, .missed, none⟩

/-- Forty dose events on day 0, 23 taken and 17 missed: the double
evaluation of `(23 / 40) * 100` is `57.49999999999999`, which rounds to 57,
while exact rational rounding of `23 / 40 × 100` gives 58. -/
def c1DivergenceLogs : List LogEntry :=
  List.replicate 23 takenDivLog ++ List.replicate 17 missedDivLog

/-- Claim C1, counterexample: (i) on a day where every scheduled event is
skipped the code computes `0 / 0 = NaN` and `Math.round(NaN) = NaN`
(modelled as `none`), not the adherence percentage 100 the claim asserts;
and (ii) with 23 events taken out of denominator 40 the double computation
`Math.round((23 / 40) * 100)` returns 57, while the claim's exact
`round(taken / (total − skipped) × 100)` is 58. -/
theorem c1_adherence_counterexample :
    adherenceToday [skippedMorning] 0 = none ∧
    adherenceToday [skippedMorning] 0 ≠ some 100 ∧
    adherenceToday c1DivergenceLogs 0 = some 57 ∧
    specRound 23 40 = 58 := by
  refine ⟨by decide, by decide, by decide, ?_⟩
  rw [specRound_eq 23 40 (by norm_num)]

/-- Claim C1 (amended): for a dose-event set filtered to a calendar day,
when nothing is scheduled the adherence percentage is 100; when events are
scheduled and every one is skipped (denominator 0) the computation yields
NaN — no numeric percentage — rather than the claimed 100; and when the
denominator `total − skipped` is positive the percentage is the IEEE-double
evaluation of `Math.round((taken / (total − skipped)) * 100)`, which lies
within 1 of the exact `round(taken / (total − skipped) × 100)` but can fall
below it, as the 23-of-40 counterexample shows. -/
theorem c1_adherence_amended (logs : List LogEntry) (d : Nat) :
    ((selectedDateLogs logs d).length = 0 → adherenceToday logs d = some 100) ∧
    (0 < (selectedDateLogs logs d).length →
      (selectedDateLogs logs d).length - countStatus (selectedDateLogs logs d) .skipped = 0 →
      adherenceToday logs d = none) ∧
    (0 < (selectedDateLogs logs d).length - countStatus (selectedDateLogs logs d) .skipped →
      adherenceToday logs d =
        some (jsMathRound (jsMul100 (jsDivNat
          (countStatus (selectedDateLogs logs d) .taken)
          ((selectedDateLogs logs d).length -
            countStatus (selectedDateLogs logs d) .skipped)))) ∧
      jsMathRound (jsMul100 (jsDivNat
          (countStatus (selectedDateLogs logs d) .taken)
          ((selectedDateLogs logs d).length -
            countStatus (selectedDateLogs logs d) .skipped)))
        ≤ specRound (countStatus (selectedDateLogs logs d) .taken)
            ((selectedDateLogs logs d).length -
              countStatus (selectedDateLogs logs d) .skipped) + 1 ∧
      specRound (countStatus (selectedDateLogs logs d) .taken)
          ((selectedDateLogs logs d).length -
            countStatus (selectedDateLogs logs d) .skipped)
        ≤ jsMathRound (jsMul100 (jsDivNat
            (countStatus (selectedDateLogs logs d) .taken)
            ((selectedDateLogs logs d).length -
              countStatus (selectedDateLogs logs d) .skipped))) + 1) := by
  refine ⟨fun hzero => ?_, fun hpos hden => ?_, fun hden => ?_⟩
  · simp only [adherenceToday, adherencePercent]
    rw [if_neg (by omega)]
  · simp only [adherenceToday, adherencePercent]
    rw [if_pos hpos, if_pos hden]
  · have hpos : 0 < (selectedDateLogs logs d).length := by
      have := Nat.sub_le (selectedDateLogs logs d).length
        (countStatus (selectedDateLogs logs d) .skipped)
      omega
    have hle : countStatus (selectedDateLogs logs d) .taken ≤
        (selectedDateLogs logs d).length -
          countStatus (selectedDateLogs logs d) .skipped := by
      have := countStatus_taken_add_skipped_le (selectedDateLogs logs d)
      omega
    refine ⟨?_, (jsRound_near_spec _ _ hden hle).1, (jsRound_near_spec _ _ hden hle).2⟩
    simp only [adherenceToday, adherencePercent]
    rw [if_pos hpos, if_neg (by omega)]

/-- Sample log list for the C1 witness: one taken, one missed, one skipped
dose on day 0. -/
def c1WitnessLogs : List LogEntry :=
  [⟨"p1", "pa1", "m1", "Amoxicillin", "500mg", 0, 8, .taken, some 30⟩,
   ⟨"p1", "pa1", "m1", "Amoxicillin", "500mg", 0, 13, .missed, none⟩,
   ⟨"p1", "pa1", "m2", "Ibuprofen", "200mg", 0, 20, .skipped, none⟩]

/-- Witness for `c1_adherence_amended` at a concrete log list. -/
theorem c1_adherence_amended_witness :
    adherenceToday c1WitnessLogs 0 =
      some (jsMathRound (jsMul100 (jsDivNat
        (countStatus (selectedDateLogs c1WitnessLogs 0) .taken)
        ((selectedDateLogs c1WitnessLogs 0).length -
          countStatus (selectedDateLogs c1WitnessLogs 0) .skipped)))) :=
  ((c1_adherence_amended c1WitnessLogs 0).2.2 (by decide)).1

/-! ## Claim C6 — adherence range -/

/-- Two skipped dose events on one day. -/
def twoSkipped : List LogEntry :=
  [⟨"p2", "pa2", "m1", "Metformin", "850mg", 3, 8, .skipped, none⟩,
   ⟨"p2", "pa2", "m1", "Metformin", "850mg", 3, 20, .skipped, none⟩]

/-- Claim C6, counterexample: for an all-skipped dose-event set the taken
count equals `total − skipped` (0 = 0), yet the computed value is NaN
(modelled `none`), which is neither 100 nor inside [0, 100]. -/
theorem c6_range_counterexample :
    adherencePercent twoSkipped = none ∧
    countStatus twoSkipped .taken = twoSkipped.length - countStatus twoSkipped .skipped ∧
    adherencePercent twoSkipped ≠ some 100 := by
  decide

/-- Claim C6 (amended): for every dose-event set that is empty or has a
positive denominator `total − skipped`, the adherence percentage is a number
in [0, 100], and it is exactly 100 when `taken = total − skipped` (including
the vacuous empty case); when events exist but all are skipped the
computation yields NaN instead of a number. -/
theorem c6_adherence_amended (logs : List LogEntry)
    (h : logs.length = 0 ∨ 0 < logs.length - countStatus logs .skipped) :
    ∃ p, adherencePercent logs = some p ∧ p ≤ 100 ∧
      (countStatus logs .taken = logs.length - countStatus logs .skipped → p = 100) := by
  rcases h with hzero | hden
  · refine ⟨100, ?_, le_refl _, fun _ => rfl⟩
    simp only [adherencePercent]
    rw [if_neg (by omega)]
  · have hpos : 0 < logs.length := by
      have := Nat.sub_le logs.length (countStatus logs .skipped)
      omega
    have hle := countStatus_taken_add_skipped_le logs
    have htd : countStatus logs .taken ≤ logs.length - countStatus logs .skipped := by
      omega
    refine ⟨jsMathRound (jsMul100 (jsDivNat (countStatus logs .taken)
      (logs.length - countStatus logs .skipped))), ?_, ?_, fun heq => ?_⟩
    · simp only [adherencePercent]
      rw [if_pos hpos, if_neg (by omega)]
    · refine jsMathRound_le _ 100 ?_
      have := jsMul100_le_100 _ (jsDivNat_le_one _ _ hden htd)
      exact_mod_cast this
    · rw [heq]
      exact jsRound_eq_100 _ hden

/-- Two taken dose events on one day, for the C6 witness. -/
def twoTaken : List LogEntry :=
  [⟨"p3", "pa3", "m1", "Lisinopril", "10mg", 1, 8, .taken, some 5⟩,
   ⟨"p3", "pa3", "m1", "Lisinopril", "10mg", 1, 13, .taken, some 6⟩]

/-- Witness for `c6_adherence_amended` at a concrete log list. -/
theorem c6_adherence_amended_witness :
    ∃ p, adherencePercent twoTaken = some p ∧ p ≤ 100 ∧
      (countStatus twoTaken .taken = twoTaken.length - countStatus twoTaken .skipped →
        p = 100) :=
  c6_adherence_amended twoTaken (Or.inr (by decide))

/-! ## Claim C4 — empty medication set -/

/-- Claim C4, counterexample: the schedule-expansion step of
`handleFinalSave`, given a prescription with an empty medication set,
produces zero dose events and still reports the success alert — the
`if (logsToInsert.length > 0)` guard merely skips the bulk insert.  No
"empty schedule" error condition is raised there. -/
theorem c4_emptyMeds_counterexample :
    handleFinalSaveLogs "presc1" "pat1" 10 13 [] =
      .success [] "Prescription saved and schedule generated!" ∧
    expandSchedule "presc1" "pat1" 10 13 [] = [] := by
  constructor <;> rfl

/-- Claim C4 (amended): the empty medication set is rejected earlier, at form
submission — `PrescriptionForm.handleSubmit` alerts "Please add at least one
medication to the prescription." before any prescription object is built —
while the schedule-expansion step itself, given an empty medication set,
silently produces zero dose events and reports success rather than raising an
"empty schedule" error. -/
theorem c4_emptyMeds_amended :
    (∀ patientId : String, patientId ≠ "" →
      handleSubmitGate patientId [] =
        .error "Please add at least one medication to the prescription.") ∧
    (∀ (pid patid : String) (S E : Nat),
      handleFinalSaveLogs pid patid S E [] =
        .success [] "Prescription saved and schedule generated!") := by
  constructor
  · intro patientId hne
    simp [handleSubmitGate, hne]
  · intro pid patid S E
    simp [handleFinalSaveLogs, expandSchedule, medDayLogs]

/-- Witness for `c4_emptyMeds_amended` at a concrete patient id. -/
theorem c4_emptyMeds_amended_witness :
    handleSubmitGate "patient-7" [] =
      .error "Please add at least one medication to the prescription." :=
  c4_emptyMeds_amended.1 "patient-7" (by decide)

/-! ## Claim C8 — request-builder serialization -/

/-- Claim C8, counterexample: a non-empty history list consisting of one item
with empty complication and empty description joins to the empty string,
which is falsy, so the builder sends the "None provided" sentinel instead of
the semicolon-joined string the claim asserts for every non-empty list. -/
theorem c8_serialization_counterexample :
    knownComplicationsText (some [⟨"", ""⟩]) = "None provided" ∧
    String.intercalate "; " (([⟨"", ""⟩] : List HistoryItem).map historyItemText) = "" := by
  constructor <;> rfl

/-- Claim C8 (amended): a missing or empty history list serializes to
"None provided"; a non-empty list serializes to the semicolon-joined
`"<complication>: <description>"` entries (description omitted when empty)
except that when that joined string is itself empty — one item with empty
complication and empty description — the falsy-string fallback sends
"None provided" instead; and each timing set serializes to the comma-joined
slot names with the "As directed" fallback exactly when no slot is
selected. -/
theorem c8_serialization_amended :
    knownComplicationsText none = "None provided" ∧
    knownComplicationsText (some []) = "None provided" ∧
    (∀ items : List HistoryItem,
      String.intercalate "; " (items.map historyItemText) ≠ "" →
      knownComplicationsText (some items) =
        String.intercalate "; " (items.map historyItemText)) ∧
    (∀ items : List HistoryItem,
      String.intercalate "; " (items.map historyItemText) = "" →
      knownComplicationsText (some items) = "None provided") ∧
    (∀ h : HistoryItem, h.description = "" → historyItemText h = h.complication) ∧
    (∀ t : Timing,
      frequencyText t =
        if t.morning = false ∧ t.afternoon = false ∧ t.night = false then "As directed"
        else String.intercalate ", "
          ((if t.morning then ["Morning"] else []) ++
            (if t.afternoon then ["Afternoon"] else []) ++
            (if t.night then ["Night"] else []))) := by
  refine ⟨rfl, rfl, ?_, ?_, ?_, ?_⟩
  · intro items hne
    simp [knownComplicationsText, hne]
  · intro items hz
    simp [knownComplicationsText, hz]
  · intro h hd
    simp [historyItemText, hd]
  · intro t
    obtain ⟨m, a, n⟩ := t
    cases m <;> cases a <;> cases n <;> decide

/-- Witness for `c8_serialization_amended` at a concrete history list. -/
theorem c8_serialization_amended_witness :
    knownComplicationsText (some [⟨"Asthma", "mild"⟩, ⟨"Diabetes", ""⟩]) =
      String.intercalate "; "
        (([⟨"Asthma", "mild"⟩, ⟨"Diabetes", ""⟩] : List HistoryItem).map historyItemText) :=
  c8_serialization_amended.2.2.1 [⟨"Asthma", "mild"⟩, ⟨"Diabetes", ""⟩] (by decide)

/-- Every entry produced by the expansion loop is pending with no taken-at
timestamp. -/
lemma expand_entry_fields (pid patid : String) (S E : Nat) (meds : List Medication)
    (e : LogEntry) (he : e ∈ expandSchedule pid patid S E meds) :
    e.status = .pending ∧ e.taken_at = none := by
  simp only [expandSchedule, List.mem_flatMap] at he
  obtain ⟨i, -, med, -, hmem⟩ := he
  simp only [medDayLogs, List.mem_append] at hmem
  rcases hmem with (h | h) | h <;> split at h <;>
    simp only [List.mem_singleton, List.not_mem_nil] at h <;>
    first
      | exact absurd h (by simp)
      | (subst h; exact ⟨rfl, rfl⟩)

/-! ## Claim C9 — dose-event state machine -/

/-- Claim C9 (confirmed): every generated dose event starts pending; the
"mark taken" action on a pending event yields status taken with
`taken_at = now` and is a legal step; the "mark missed" action yields status
missed and is a legal step; and no step at all leaves an event whose status
is taken, missed or skipped — those states are terminal, because the action
buttons are rendered only for pending events. -/
theorem c9_state_machine :
    (∀ (pid patid : String) (S E : Nat) (meds : List Medication) (e : LogEntry),
      e ∈ expandSchedule pid patid S E meds → e.status = .pending ∧ e.taken_at = none) ∧
    (∀ (now : Nat) (e : LogEntry), e.status = .pending →
      (applyAction now .markTaken e).status = .taken ∧
      (applyAction now .markTaken e).taken_at = some now ∧
      Step e (applyAction now .markTaken e)) ∧
    (∀ (now : Nat) (e : LogEntry), e.status = .pending →
      (applyAction now .markMissed e).status = .missed ∧
      (applyAction now .markMissed e).taken_at = none ∧
      Step e (applyAction now .markMissed e)) ∧
    (∀ e e' : LogEntry,
      e.status = .taken ∨ e.status = .missed ∨ e.status = .skipped → ¬ Step e e') := by
  refine ⟨?_, ?_, ?_, ?_⟩
  · exact expand_entry_fields
  · intro now e hp
    refine ⟨rfl, rfl, Step.act e .markTaken now ?_⟩
    simp [availableActions, hp]
  · intro now e hp
    refine ⟨rfl, rfl, Step.act e .markMissed now ?_⟩
    simp [availableActions, hp]
  · intro e e' ht hstep
    cases hstep with
    | act a now h =>
      rcases ht with h1 | h1 | h1 <;> simp [availableActions, h1] at h

/-- Witness for `c9_state_machine` at a concrete pending event. -/
theorem c9_state_machine_witness :
    (applyAction 42 .markTaken ⟨"p", "q", "m", "Med", "1mg", 0, 8, .pending, none⟩).status =
        .taken ∧
      (applyAction 42 .markTaken ⟨"p", "q", "m", "Med", "1mg", 0, 8, .pending, none⟩).taken_at =
        some 42 ∧
      Step ⟨"p", "q", "m", "Med", "1mg", 0, 8, .pending, none⟩
        (applyAction 42 .markTaken ⟨"p", "q", "m", "Med", "1mg", 0, 8, .pending, none⟩) :=
  c9_state_machine.2.1 42 ⟨"p", "q", "m", "Med", "1mg", 0, 8, .pending, none⟩ rfl

/-! ## Claim C10 — age fallback -/

/-- Claim C10 (confirmed): with no date of birth the builder computes age 0 —
the same value a clamped negative raw age produces — and sends that 0 in the
payload's `patient.age` field. -/
theorem c10_age_fallback :
    (∀ today : SimpleDate, calculateAge today none = 0) ∧
    (∀ today birth : SimpleDate, calculateAgeRaw today birth < 0 →
      calculateAge today (some birth) = 0) ∧
    (∀ (today : SimpleDate) (gender diagnosis : Option String)
        (mh : Option (List HistoryItem)) (ongoing : Option String)
        (meds : List Medication),
      (buildPayload today none gender diagnosis mh ongoing meds).patient.age = 0) := by
  refine ⟨fun _ => rfl, ?_, fun _ _ _ _ _ _ => rfl⟩
  intro today birth hneg
  simp only [calculateAge]
  rw [if_neg (by omega)]

/-- Witness for `c10_age_fallback` at a birth date after today. -/
theorem c10_age_fallback_witness :
    calculateAge ⟨2020, 0, 1⟩ (some ⟨2025, 0, 1⟩) = 0 :=
  c10_age_fallback.2.1 ⟨2020, 0, 1⟩ ⟨2025, 0, 1⟩ (by decide)

/-! ## Claim C2 — schedule expansion counts -/

/-- Count of one target entry in one medication's one-day logs, for the
medication the target was built from. -/
lemma count_medDayLogs_self (pid patid : String) (med : Medication) (day d : Nat)
    (slot : Slot) :
    (medDayLogs pid patid med day).count (createLogEntry pid patid med d (slotHour slot)) =
      if day = d ∧ slotSelected med.timing slot = true then 1 else 0 := by
  obtain ⟨mid, mname, mdos, ⟨m, a, n⟩, minstr⟩ := med
  cases slot <;> cases m <;> cases a <;> cases n <;>
    simp [medDayLogs, createLogEntry, slotHour, slotSelected, List.count_append,
      List.count_cons, List.count_nil, LogEntry.mk.injEq, beq_iff_eq, and_comm]

/-- A target entry built from a medication with a different id never occurs
in another medication's one-day logs. -/
lemma count_medDayLogs_ne (pid patid : String) (med med' : Medication) (day d : Nat)
    (slot : Slot) (hne : med.id ≠ med'.id) :
    (medDayLogs pid patid med day).count (createLogEntry pid patid med' d (slotHour slot)) = 0 := by
  rw [List.count_eq_zero]
  intro hmem
  simp only [medDayLogs, List.mem_append] at hmem
  rcases hmem with (h | h) | h <;> split at h <;>
    simp only [List.mem_singleton, List.not_mem_nil] at h <;>
    first
      | exact h
      | exact hne ((congrArg LogEntry.medication_id h).symm)

/-- A target entry vanishes from the one-day logs of a medication list none
of whose ids is the target's. -/
lemma count_flatMap_zero (pid patid : String) (day d : Nat) (slot : Slot)
    (med' : Medication) (ms : List Medication)
    (hid : med'.id ∉ ms.map Medication.id) :
    (ms.flatMap fun m => medDayLogs pid patid m day).count
      (createLogEntry pid patid med' d (slotHour slot)) = 0 := by
  revert hid
  induction ms with
  | nil => intro _; rfl
  | cons m t ih =>
    intro hid
    simp only [List.map_cons, List.mem_cons, not_or] at hid
    rw [List.flatMap_cons, List.count_append, ih hid.2,
      count_medDayLogs_ne pid patid m med' day d slot fun hm => hid.1 hm.symm]

/-- Count of one target entry in a whole day's logs over a medication list
with distinct ids. -/
lemma count_flatMap_meds (pid patid : String) (day d : Nat) (slot : Slot)
    (meds : List Medication) (hnd : (meds.map Medication.id).Nodup)
    (med : Medication) (hmem : med ∈ meds) :
    (meds.flatMap fun m => medDayLogs pid patid m day).count
      (createLogEntry pid patid med d (slotHour slot)) =
      if day = d ∧ slotSelected med.timing slot = true then 1 else 0 := by
  revert hnd hmem
  induction meds with
  | nil => intro _ h; cases h
  | cons m t ih =>
    intro hnd hmem
    rw [List.map_cons, List.nodup_cons] at hnd
    rw [List.flatMap_cons, List.count_append]
    rcases List.mem_cons.mp hmem with heq | hmm2
    · subst heq
      rw [count_medDayLogs_self, count_flatMap_zero pid patid day d slot med t hnd.1,
        Nat.add_zero]
    · have hne : m.id ≠ med.id := by
        intro h
        exact hnd.1 (h ▸ List.mem_map_of_mem Medication.id hmm2)
      rw [count_medDayLogs_ne pid patid m med day d slot hne, ih hnd.2 hmm2, Nat.zero_add]

/-- Sum of a day-matching indicator over the day range. -/
lemma sum_range_indicator (S d n : Nat) (P : Prop) [Decidable P] :
    ((List.range n).map fun i => if S + i = d ∧ P then 1 else 0).sum =
      if S ≤ d ∧ d < S + n ∧ P then 1 else 0 := by
  induction n with
  | zero =>
    simp only [List.range_zero, List.map_nil, List.sum_nil]
    rw [if_neg (by rintro ⟨h1, h2, -⟩; omega)]
  | succ n ih =>
    rw [List.range_succ, List.map_append, List.sum_append, ih]
    simp only [List.map_cons, List.map_nil, List.sum_cons, List.sum_nil]
    by_cases hP : P
    · simp only [hP, and_true]
      split_ifs <;> omega
    · simp [hP]

/-- Count of one target entry in the full expansion over a medication list
with distinct ids: exactly one when the day lies in the closed range and the
slot is selected, zero otherwise. -/
lemma count_expand (pid patid : String) (S E : Nat) (meds : List Medication)
    (hnd : (meds.map Medication.id).Nodup) (med : Medication) (hmem : med ∈ meds)
    (d : Nat) (slot : Slot) :
    (expandSchedule pid patid S E meds).count
      (createLogEntry pid patid med d (slotHour slot)) =
      if S ≤ d ∧ d ≤ E ∧ slotSelected med.timing slot = true then 1 else 0 := by
  rw [expandSchedule, List.count_flatMap]
  simp only [Function.comp_def]
  rw [List.map_congr_left fun i _ =>
    count_flatMap_meds pid patid (S + i) d slot meds hnd med hmem]
  rw [sum_range_indicator]
  have hiff : (S ≤ d ∧ d < S + (E + 1 - S) ∧ slotSelected med.timing slot = true) ↔
      (S ≤ d ∧ d ≤ E ∧ slotSelected med.timing slot = true) := by
    constructor <;> rintro ⟨h1, h2, h3⟩ <;> exact ⟨h1, by omega, h3⟩
  simp only [hiff]

/-- Length of one medication's one-day logs. -/
lemma length_medDayLogs (pid patid : String) (med : Medication) (day : Nat) :
    (medDayLogs pid patid med day).length = slotCount med.timing := by
  obtain ⟨mid, mname, mdos, ⟨m, a, n⟩, minstr⟩ := med
  cases m <;> cases a <;> cases n <;> rfl

/-- Length of the full expansion: days times total selected slots. -/
lemma length_expand (pid patid : String) (S E : Nat) (meds : List Medication) :
    (expandSchedule pid patid S E meds).length =
      (E + 1 - S) * (meds.map fun m => slotCount m.timing).sum := by
  rw [expandSchedule, List.length_flatMap]
  have hinner : ∀ i ∈ List.range (E + 1 - S),
      (List.length ∘ fun i => meds.flatMap fun med => medDayLogs pid patid med (S + i)) i =
        (meds.map fun m => slotCount m.timing).sum := by
    intro i _
    simp only [Function.comp_apply, List.length_flatMap]
    congr 1
    exact List.map_congr_left fun m _ => length_medDayLogs pid patid m (S + i)
  rw [List.map_congr_left hinner, List.map_const', List.sum_replicate, smul_eq_mul,
    List.length_range]

/-- Sum of a map whose values are all one. -/
lemma sum_map_ones {α : Type} (f : α → Nat) :
    ∀ l : List α, (∀ m ∈ l, f m = 1) → (l.map f).sum = l.length
  | [], _ => rfl
  | x :: t, h => by
    simp [sum_map_ones f t fun m hm => h m (List.mem_cons_of_mem x hm),
      h x (List.mem_cons_self x t)]
    omega

/-- Claim C2 (confirmed): for a prescription with start day `S ≤ E` the
expansion emits only pending events; with pairwise-distinct medication ids it
emits exactly one event per (day in `[S, E]`, medication, selected slot) —
the event scheduled at that day and the slot's fixed hour (8, 13, 20) — and
when every medication selects exactly one slot the total count is
`(E − S + 1) × M = (D + 1) × M` for duration `D = E − S`. -/
theorem c2_schedule_expansion (pid patid : String) (S E : Nat)
    (meds : List Medication) (hSE : S ≤ E) :
    (∀ e ∈ expandSchedule pid patid S E meds, e.status = .pending ∧ e.taken_at = none) ∧
    ((meds.map Medication.id).Nodup → ∀ med ∈ meds, ∀ (d : Nat) (slot : Slot),
      (expandSchedule pid patid S E meds).count
        (createLogEntry pid patid med d (slotHour slot)) =
        if S ≤ d ∧ d ≤ E ∧ slotSelected med.timing slot = true then 1 else 0) ∧
    ((∀ m ∈ meds, slotCount m.timing = 1) →
      (expandSchedule pid patid S E meds).length = (E - S + 1) * meds.length) := by
  refine ⟨expand_entry_fields pid patid S E meds, ?_, ?_⟩
  · intro hnd med hmem d slot
    exact count_expand pid patid S E meds hnd med hmem d slot
  · intro hone
    rw [length_expand, sum_map_ones _ meds hone]
    congr 1
    omega

/-- Sample single-slot medication for the C2 witness. -/
def c2Med : Medication :=
  ⟨"medA", "Paracetamol", "650mg", ⟨true, false, false⟩, "With water"⟩

/-- Witness for `c2_schedule_expansion`: a three-day prescription with one
single-slot medication yields three dose events. -/
theorem c2_schedule_expansion_witness :
    (expandSchedule "rx1" "pt1" 0 2 [c2Med]).length = (2 - 0 + 1) * [c2Med].length :=
  (c2_schedule_expansion "rx1" "pt1" 0 2 [c2Med] (by decide)).2.2 (by decide)

/-! ## Claim C3 — assessment mapping -/

/-- A syntactically valid reply whose `overall_assessment` is none of the
three documented values. -/
def unrecognizedReply : List Char :=
  "\x7b\"overall_assessment\":\"Moderate\",\"flags\":[]\x7d".toList

/-- Claim C3, counterexample: the reply with `overall_assessment` equal to
the unrecognized value "Moderate" passes the server's truthiness check and
the client's two comparisons both miss, leaving the initial `'safe'` value —
a silently-accepted default verdict instead of the data error the claim
demands for "any other value". -/
theorem c3_default_counterexample :
    (interpretResponse unrecognizedReply).status = Verdict.safe ∧
    Verdict.safe ≠ Verdict.error := by
  decide

/-- Claim C3 (amended): the interpretation maps `overall_assessment`
case-insensitively with `'caution'` to Warning and `'high-risk'` to HighRisk;
a missing or empty value is a data error; but every other string value —
`'safe'` and unrecognized values alike — yields the Safe verdict as the
untouched default rather than a data error. -/
theorem c3_assessment_amended (s : String) :
    (postParse (Json.obj [("overall_assessment", Json.str s), ("flags", Json.arr [])])).status =
      if s = "" then Verdict.error
      else if lowerString s = "caution" then Verdict.warning
      else if lowerString s = "high-risk" then Verdict.highRisk
      else Verdict.safe := by
  by_cases hs : s = ""
  · subst hs
    decide
  · rw [if_neg hs]
    simp only [postParse, serverValidate, clientMap, clientInterpret, jsGetMember,
      lookupLast, truthyOpt, truthy, isArrOpt, assessLower, List.foldl, Bind.bind,
      Except.bind, Pure.pure, Except.pure, List.mapM, List.mapM.loop]
    simp [hs]
    rfl

/-! ## Claim C5 — malformed replies -/

/-- The server handler once the trimmed reply is non-empty: extraction,
parse, validation. -/
lemma serverRespond_eq_of_ne_nil (content : List Char) (h : jsTrim content ≠ []) :
    serverRespond content =
      match parseJson (extractJson (jsTrim content)) with
      | none => Except.error "AI returned invalid JSON format"
      | some p => serverValidate p := by
  unfold serverRespond
  exact if_neg h

/-- The server handler on an empty trimmed reply. -/
lemma serverRespond_empty (content : List Char) (h : jsTrim content = []) :
    serverRespond content = .error "Empty AI response" := by
  unfold serverRespond
  exact if_pos h

/-- Validation rejects every parsed value that lacks a truthy
`overall_assessment` field or an array `flags` field. -/
lemma serverValidate_error_of_malformed (p : Json)
    (h : jsGetMember p "overall_assessment" = .ok none ∨
         jsGetMember p "overall_assessment" = .error () ∨
         jsGetMember p "flags" = .ok none ∨
         jsGetMember p "flags" = .error () ∨
         ∃ v, jsGetMember p "flags" = .ok (some v) ∧ isArrOpt (some v) = false) :
    ∃ m, serverValidate p = .error m := by
  rcases hoa : jsGetMember p "overall_assessment" with u | oa
  · exact ⟨"TypeError", by simp [serverValidate, hoa]⟩
  · rcases oa with - | v
    · exact ⟨"AI response structure does not match expected format",
        by simp [serverValidate, hoa, truthyOpt]⟩
    · by_cases htv : truthyOpt (some v) = false
      · exact ⟨"AI response structure does not match expected format",
          by simp [serverValidate, hoa, htv]⟩
      · rcases h with h1 | h1 | h1 | h1 | ⟨w, hw, hwa⟩
        · rw [hoa] at h1
          simp at h1
        · rw [hoa] at h1
          simp at h1
        · exact ⟨"AI response structure does not match expected format",
            by simp [serverValidate, hoa, htv, h1, isArrOpt]⟩
        · exact ⟨"TypeError", by simp [serverValidate, hoa, htv, h1]⟩
        · exact ⟨"AI response structure does not match expected format",
            by simp [serverValidate, hoa, htv, hw, hwa]⟩

/-- The error branch of the client mapping. -/
lemma clientInterpret_error (d : String) :
    clientInterpret (.error d) =
      { status := .error
        message := "Failed to get AI analysis: API Error 500: " ++ d
        suggestions := [] } := rfl

/-- A string starting with the client's error prefix is never empty. -/
lemma errorMessage_ne_empty (d : String) :
    "Failed to get AI analysis: API Error 500: " ++ d ≠ "" := by
  intro hcontra
  have hlen := congrArg String.length hcontra
  rw [String.length_append] at hlen
  have h0 : ("" : String).length = 0 := rfl
  have hp : 0 < ("Failed to get AI analysis: API Error 500: " : String).length := by decide
  rw [h0] at hlen
  omega

/-- Any malformed reply makes the server respond with an error. -/
lemma serverRespond_error_of_malformed (content : List Char)
    (h : parseJson (extractJson (jsTrim content)) = none ∨
      ∃ p, parseJson (extractJson (jsTrim content)) = some p ∧
        (jsGetMember p "overall_assessment" = .ok none ∨
         jsGetMember p "overall_assessment" = .error () ∨
         jsGetMember p "flags" = .ok none ∨
         jsGetMember p "flags" = .error () ∨
         ∃ v, jsGetMember p "flags" = .ok (some v) ∧ isArrOpt (some v) = false)) :
    ∃ m, serverRespond content = .error m := by
  by_cases ht : jsTrim content = []
  · exact ⟨_, serverRespond_empty content ht⟩
  · rw [serverRespond_eq_of_ne_nil content ht]
    rcases h with hnone | ⟨p, hp, hmal⟩
    · rw [hnone]
      exact ⟨_, rfl⟩
    · rw [hp]
      exact serverValidate_error_of_malformed p hmal

/-- Claim C5 (confirmed): a reply whose extracted JSON fails to parse, or
parses to a value lacking an `overall_assessment`, lacking a `flags` field,
or carrying a non-array `flags`, is interpreted as the Error-kind result with
a non-empty diagnostic; and for every reply whatsoever the doctor-facing
caller receives one of the four verdicts Safe, Warning, HighRisk, Error —
never an uncaught exception. -/
theorem c5_malformed_to_error :
    (∀ content : List Char,
      (parseJson (extractJson (jsTrim content)) = none ∨
        ∃ p, parseJson (extractJson (jsTrim content)) = some p ∧
          (jsGetMember p "overall_assessment" = .ok none ∨
           jsGetMember p "overall_assessment" = .error () ∨
           jsGetMember p "flags" = .ok none ∨
           jsGetMember p "flags" = .error () ∨
           ∃ v, jsGetMember p "flags" = .ok (some v) ∧ isArrOpt (some v) = false)) →
      (interpretResponse content).status = .error ∧
      (interpretResponse content).message ≠ "") ∧
    (∀ content : List Char,
      (interpretResponse content).status = .safe ∨
      (interpretResponse content).status = .warning ∨
      (interpretResponse content).status = .highRisk ∨
      (interpretResponse content).status = .error) := by
  constructor
  · intro content h
    obtain ⟨m, hm⟩ := serverRespond_error_of_malformed content h
    rw [interpretResponse, hm, clientInterpret_error]
    exact ⟨rfl, errorMessage_ne_empty m⟩
  · intro content
    cases hst : (interpretResponse content).status <;> simp

/-- Witness for `c5_malformed_to_error` at a free-text reply with no JSON. -/
theorem c5_malformed_to_error_witness :
    (interpretResponse (String.toList "The model refused to answer.")).status =
        Verdict.error ∧
      (interpretResponse (String.toList "The model refused to answer.")).message ≠ "" :=
  c5_malformed_to_error.1 (String.toList "The model refused to answer.")
    (Or.inl (by rfl))

/-! ## Claim C7 — fenced versus bare JSON -/

/-- A fence test that fails on a short list still fails when the list
continues with a newline: the newline can never be part of a ``` fence. -/
lemma hasFenceAt_cons_append_nl (c : Char) (cs rest : List Char)
    (h : hasFenceAt (c :: cs) = false) :
    hasFenceAt (c :: (cs ++ '\n' :: rest)) = false := by
  match cs with
  | [] => simp [hasFenceAt, matchesChars]
  | [d] => simp [hasFenceAt, matchesChars]
  | d :: e :: cs' => simpa [hasFenceAt, matchesChars] using h

/-- Splitting at the first fence of `l ++ "\n```" ++ rest` finds exactly the
appended fence when `l` itself contains none. -/
lemma splitAtFence_append (l rest : List Char) (h : splitAtFence l = none) :
    splitAtFence (l ++ '\n' :: '\x60' :: '\x60' :: '\x60' :: rest) =
      some (l ++ ['\n'], rest) := by
  induction l with
  | nil => simp [splitAtFence, hasFenceAt, matchesChars]
  | cons c cs ih =>
    have hcs : hasFenceAt (c :: cs) = false ∧ splitAtFence cs = none := by
      by_cases hf : hasFenceAt (c :: cs)
      · rw [splitAtFence, if_pos hf] at h
        cases h
      · refine ⟨by simpa using hf, ?_⟩
        rw [splitAtFence, if_neg hf] at h
        rcases hsp : splitAtFence cs with - | pr
        · rfl
        · rw [hsp] at h
          cases h
    rw [List.cons_append, splitAtFence,
      if_neg (by
        intro hX
        rw [hasFenceAt_cons_append_nl c cs ('\x60' :: '\x60' :: '\x60' :: rest) hcs.1] at hX
        exact Bool.noConfusion hX),
      ih hcs.2]
    rfl

/-- The brace alternative's greedy body takes the whole remainder when it
ends with a closing brace. -/
lemma takeToLastRBrace_full (t : List Char) (h : t.getLast? = some '\x7d') :
    takeToLastRBrace t = some t := by
  induction t with
  | nil => cases h
  | cons c cs ih =>
    rcases cs with - | ⟨d, ds⟩
    · have hc : c = '\x7d' := by simpa using h
      subst hc
      rfl
    · have h2 : (d :: ds).getLast? = some '\x7d' := by
        rwa [List.getLast?_cons_cons] at h
      show (match takeToLastRBrace (d :: ds) with
        | some r => some (c :: r)
        | none => if c = '\x7d' then some [c] else none) = some (c :: d :: ds)
      rw [ih h2]

/-- Dropping whitespace from a list whose head is not whitespace is the
identity. -/
lemma dropWhile_nonws (x : Char) (l : List Char) (h : jsWs x = false) :
    List.dropWhile jsWs (x :: l) = x :: l := by
  rw [List.dropWhile_cons, if_neg (by simp [h])]

/-- Stripping trailing whitespace from `j ++ "\n"` recovers `j` when `j` ends
with a closing brace. -/
lemma rtrimWs_append_nl (j : List Char) (h2 : j.getLast? = some '\x7d') :
    rtrimWs (j ++ ['\n']) = j := by
  have hhead : j.reverse.head? = some '\x7d' := by
    rw [← List.getLast?_eq_head?_reverse]
    exact h2
  rcases hr : j.reverse with - | ⟨z, zs⟩
  · rw [hr] at hhead
    cases hhead
  · have hz : z = '\x7d' := by
      rw [hr] at hhead
      simpa using hhead
    subst hz
    unfold rtrimWs
    rw [List.reverse_append, List.reverse_singleton, List.singleton_append,
      List.dropWhile_cons, if_pos (show jsWs '\n' = true from rfl), hr,
      dropWhile_nonws '\x7d' zs rfl, ← hr, List.reverse_reverse]

/-- Trimming a list whose first and last characters are not whitespace is the
identity. -/
lemma jsTrim_noop (x : Char) (t : List Char) (hx : jsWs x = false)
    (y : Char) (hy : (x :: t).getLast? = some y) (hyw : jsWs y = false) :
    jsTrim (x :: t) = x :: t := by
  unfold jsTrim
  rw [dropWhile_nonws x t hx]
  have hhead : (x :: t).reverse.head? = some y := by
    rw [← List.getLast?_eq_head?_reverse]
    exact hy
  rcases hr : (x :: t).reverse with - | ⟨z, zs⟩
  · rw [hr] at hhead
    cases hhead
  · have hz : z = y := by
      rw [hr] at hhead
      simpa using hhead
    subst hz
    rw [dropWhile_nonws _ zs hyw, ← hr, List.reverse_reverse]

/-- The scan returns the fence alternative's group when it matches at the
first position. -/
lemma firstMatch_cons_fence {c : Char} {cs g : List Char}
    (h : fenceAlt (c :: cs) = some g) : firstMatch (c :: cs) = some g := by
  rw [firstMatch, h]

/-- The scan returns the brace alternative's group when the fence alternative
fails and the brace alternative matches at the first position. -/
lemma firstMatch_cons_brace {c : Char} {cs g : List Char}
    (hf : fenceAlt (c :: cs) = none) (h : braceAlt (c :: cs) = some g) :
    firstMatch (c :: cs) = some g := by
  rw [firstMatch, hf, h]

/-- Extraction on a bare JSON object text is the identity: the brace
alternative matches at position 0 and reaches the final closing brace. -/
lemma extractJson_bare (t : List Char) (h2 : ('\x7b' :: t).getLast? = some '\x7d') :
    extractJson ('\x7b' :: t) = '\x7b' :: t := by
  have hfa : fenceAlt ('\x7b' :: t) = none := by
    simp [fenceAlt, hasJsonFenceAt, matchesChars]
  have ht : t.getLast? = some '\x7d' := by
    rcases t with - | ⟨a, as⟩
    · rw [List.getLast?_singleton] at h2
      exact absurd (Option.some.inj h2) (by decide)
    · rwa [List.getLast?_cons_cons] at h2
  have hba : braceAlt ('\x7b' :: t) = some ('\x7b' :: t) := by
    simp [braceAlt, takeToLastRBrace_full t ht]
  unfold extractJson
  rw [firstMatch_cons_brace hfa hba]

/-- Extraction on the fenced wrapping of a JSON object text that contains no
``` fence recovers exactly the text: the lazy group runs to the closing fence
and the trailing newline is stripped. -/
lemma extractJson_wrapped (t : List Char)
    (h2 : ('\x7b' :: t).getLast? = some '\x7d')
    (h3 : splitAtFence ('\x7b' :: t) = none) :
    extractJson (wrapFence ('\x7b' :: t)) = '\x7b' :: t := by
  have hfa : fenceAlt ('\x60' :: '\x60' :: '\x60' :: 'j' :: 's' :: 'o' :: 'n' :: '\n' ::
      (('\x7b' :: t) ++ ('\n' :: '\x60' :: '\x60' :: '\x60' :: []))) =
      some ('\x7b' :: t) := by
    unfold fenceAlt
    rw [if_pos (by simp [hasJsonFenceAt, matchesChars])]
    simp only [List.drop_succ_cons, List.drop_zero]
    rw [List.dropWhile_cons, if_pos (show jsWs '\n' = true from rfl), List.cons_append,
      dropWhile_nonws '\x7b' _ rfl, ← List.cons_append,
      splitAtFence_append ('\x7b' :: t) [] h3]
    show some (rtrimWs (('\x7b' :: t) ++ ['\n'])) = some ('\x7b' :: t)
    rw [rtrimWs_append_nl _ h2]
  unfold extractJson wrapFence
  rw [firstMatch_cons_fence hfa]

/-- A reply that is a complete, valid safety-check JSON object containing a
``` fence inside one of its string values. -/
def fencedNoteReply : List Char :=
  "\x7b\"overall_assessment\":\"Safe\",\"flags\":[],\"note\":\"\x60\x60\x60\"\x7d".toList

/-- Claim C7, counterexample: `fencedNoteReply` is parseable JSON and is
interpreted as Safe when sent bare, but once wrapped in a ```json fenced
block the lazy group of the extraction regex stops at the ``` inside the
string value, the truncated text fails to parse, and the interpretation is
the Error verdict — a different structured result. -/
theorem c7_fence_counterexample :
    (parseJson fencedNoteReply).isSome = true ∧
    (interpretResponse fencedNoteReply).status = Verdict.safe ∧
    (interpretResponse (wrapFence fencedNoteReply)).status = Verdict.error ∧
    interpretResponse (wrapFence fencedNoteReply) ≠ interpretResponse fencedNoteReply := by
  refine ⟨by decide, by decide, by decide, by decide⟩

/-- Claim C7 (amended): for every JSON object text `j` — starting with an
opening brace, ending with a closing brace — that does not contain the ```
fence marker, interpreting `j` wrapped in a ```json fenced code block yields
the same structured result as interpreting the bare `j`.  (The
counterexample shows the restriction is necessary: a ``` inside `j` truncates
the lazily matched group.) -/
theorem c7_fenced_equivalence_amended (j : List Char)
    (h1 : ∃ t, j = '\x7b' :: t)
    (h2 : j.getLast? = some '\x7d')
    (h3 : splitAtFence j = none) :
    interpretResponse (wrapFence j) = interpretResponse j := by
  obtain ⟨t, rfl⟩ := h1
  have htb : jsTrim ('\x7b' :: t) = '\x7b' :: t :=
    jsTrim_noop '\x7b' t rfl '\x7d' h2 rfl
  have hw_shape : wrapFence ('\x7b' :: t) =
      ('\x60' :: '\x60' :: '\x60' :: 'j' :: 's' :: 'o' :: 'n' :: '\n' :: '\x7b' :: t) ++
        ('\n' :: '\x60' :: '\x60' :: '\x60' :: []) := by
    simp [wrapFence]
  have hwlast : (wrapFence ('\x7b' :: t)).getLast? = some '\x60' := by
    rw [hw_shape, List.getLast?_append]
    rfl
  have htw : jsTrim (wrapFence ('\x7b' :: t)) = wrapFence ('\x7b' :: t) := by
    exact jsTrim_noop '\x60' _ rfl '\x60' hwlast rfl
  have hne_b : jsTrim ('\x7b' :: t) ≠ [] := by
    rw [htb]
    simp
  have hne_w : jsTrim (wrapFence ('\x7b' :: t)) ≠ [] := by
    rw [htw]
    simp [wrapFence]
  unfold interpretResponse
  congr 1
  rw [serverRespond_eq_of_ne_nil _ hne_w, serverRespond_eq_of_ne_nil _ hne_b,
    htb, htw, extractJson_wrapped t h2 h3, extractJson_bare t h2]

/-- A plain two-field safety reply for the C7 witness. -/
def plainReply : List Char :=
  "\x7b\"overall_assessment\":\"Caution\",\"flags\":[]\x7d".toList

/-- Witness for `c7_fenced_equivalence_amended` at a concrete reply. -/
theorem c7_fenced_equivalence_amended_witness :
    interpretResponse (wrapFence plainReply) = interpretResponse plainReply :=
  c7_fenced_equivalence_amended plainReply ⟨_, rfl⟩ (by decide) (by rfl)

end MediTrack
